import Mathlib

/-!
Verification of the steganography codec and click-sequence matcher of
`secret-click-craft` (src/utils/steganography.ts, src/components/EncodeMode.tsx,
DecodeMode, ImageCanvas).

Modelling conventions:
* JavaScript strings are lists of UTF-16 code-unit values (`List Nat`).
* A pixel buffer (`Uint8ClampedArray` of an `ImageData`) is a flat `List Nat`
  of bytes in RGBA order, row major.
* JavaScript numbers occurring inside a payload are represented by the
  grammatical components of their JSON numeral (sign, integer digits,
  fraction digits, exponent), which is exactly the form in which they travel
  through the encoded bit stream.
* `JSON.parse` / `JSON.stringify` are the platform collaborators used by the
  code; they are modelled by an executable JSON parser / printer over the
  same `List Nat` character representation.  `decodeMessage` returns the raw
  parsed JSON value, mirroring the unchecked `as SteganographyData` cast.
-/

namespace Stego

/-- Code units of a Lean string literal, used to write JS string constants. -/
def strCodes (s : String) : List Nat :=
  s.data.map Char.toNat

/-- Inner loop of `natToBits`; the first argument is recursion fuel (always
instantiated with `n` itself, which suffices since `n / 2` halves). -/
def natToBitsAux : Nat → Nat → List Nat
  | _, 0 => [0]
  | _, 1 => [1]
  | 0, n => [n % 2]
  | fuel + 1, n => natToBitsAux fuel (n / 2) ++ [n % 2]

/-- MSB-first binary digits of `n`, `[0]` for `0`: model of
`n.toString(2)` in JavaScript. -/
def natToBits (n : Nat) : List Nat :=
  natToBitsAux n n

/-- `padStart(8, the zero character)` applied to the binary digits:
model of one character's contribution in `stringToBinary`. -/
def charToBits (c : Nat) : List Nat :=
  let b := natToBits c
  List.replicate (8 - b.length) 0 ++ b

/-- Model of `stringToBinary` (steganography.ts line 13): each character's
code, in binary, padded on the left to (at least) 8 digits, concatenated. -/
def stringToBinary (s : List Nat) : List Nat :=
  s.flatMap charToBits

/-- Value of an MSB-first bit list: model of `parseInt(byte, 2)`. -/
def bitsToNat (bits : List Nat) : Nat :=
  bits.foldl (fun a b => 2 * a + b) 0

/-- Groups of exactly 8 leading bits; a trailing group shorter than 8 is
dropped: model of `binary.match(/.{8}/g)`. -/
def chunks8 : List Nat → List (List Nat)
  | b1 :: b2 :: b3 :: b4 :: b5 :: b6 :: b7 :: b8 :: rest =>
    [b1, b2, b3, b4, b5, b6, b7, b8] :: chunks8 rest
  | _ => []

/-- Model of `binaryToString` (steganography.ts line 20). -/
def binaryToString (binary : List Nat) : List Nat :=
  (chunks8 binary).map bitsToNat

/-- The 16-bit end-of-data marker (steganography.ts line 46). -/
def delimiter : List Nat :=
  [1, 1, 1, 1, 1, 1, 1, 1, 1, 1, 1, 1, 1, 1, 1, 0]

/-- The encoding loop (steganography.ts lines 54-60): bit `i` goes into the
least significant bit of byte `4 * i` (the red channel of pixel `i`),
`pixels[pixelIndex] = (pixels[pixelIndex] & 0xFE) | bit`. -/
def writeBits (pixels : List Nat) : List Nat → List Nat
  | [] => pixels
  | bit :: bits =>
    match pixels with
    | [] => []
    | r :: rest => ((r &&& 0xFE) ||| bit) :: (rest.take 3 ++ writeBits (rest.drop 3) bits)

/-- The decoding scan loop (steganography.ts lines 87-97): read the least
significant bit of every 4th byte (the red channel), appending to the
accumulator; as soon as the accumulator ends with the delimiter, strip the
delimiter and stop.  Written with explicit 4-byte groups so that it computes
by kernel reduction; `scanLSB_cons` recovers the stride-3-drop recurrence. -/
def scanLSB : List Nat → List Nat → List Nat
  | [], acc => acc
  | r :: _ :: _ :: _ :: rest, acc =>
    let acc' := acc ++ [r &&& 1]
    if delimiter.isSuffixOf acc' then acc'.take (acc'.length - 16)
    else scanLSB rest acc'
  | r :: _, acc =>
    let acc' := acc ++ [r &&& 1]
    if delimiter.isSuffixOf acc' then acc'.take (acc'.length - 16)
    else acc'

/-- The red-channel LSB stream of a pixel buffer (every 4th byte, `&&& 1`). -/
def redLSBs : List Nat → List Nat
  | [] => []
  | r :: _ :: _ :: _ :: rest => (r &&& 1) :: redLSBs rest
  | r :: _ => [r &&& 1]

/-- The scan loop expressed directly on a bit stream (used to analyse
`scanLSB` through `redLSBs`). -/
def scanStream (bits : List Nat) (acc : List Nat) : List Nat :=
  match bits with
  | [] => acc
  | b :: bs =>
    let acc' := acc ++ [b]
    if delimiter.isSuffixOf acc' then acc'.take (acc'.length - 16)
    else scanStream bs acc'

/-- Grammatical components of a JSON numeral: sign, integer digits, optional
fraction digits, optional exponent characters (optional sign character
followed by digits).  This is the wire form of a JavaScript number inside a
serialized payload. -/
structure JsonNumber where
  neg : Bool
  intDigits : List Nat
  frac : Option (List Nat)
  exp : Option (List Nat)
deriving DecidableEq

/-- JSON values, as produced by the platform's `JSON.parse`. -/
inductive Json where
  | null
  | bool (b : Bool)
  | num (n : JsonNumber)
  | str (s : List Nat)
  | arr (items : List Json)
  | obj (fields : List (List Nat × Json))

/-- Characters of the optional fraction part of a JSON numeral. -/
def fracChars : Option (List Nat) → List Nat
  | none => []
  | some f => 46 :: f

/-- Characters of the optional exponent part of a JSON numeral. -/
def expChars : Option (List Nat) → List Nat
  | none => []
  | some e => 101 :: e

/-- Characters of a JSON numeral from its components. -/
def stringifyNumber (n : JsonNumber) : List Nat :=
  (if n.neg then [45] else []) ++ n.intDigits ++ fracChars n.frac ++ expChars n.exp

/-- Lowercase hexadecimal digit character, as emitted by `JSON.stringify`
for control-character escapes. -/
def hexDigitChar (d : Nat) : Nat :=
  if d < 10 then 48 + d else 87 + d

/-- How `JSON.stringify` renders one string character: quote and backslash
get a backslash escape, the named control characters get their short escape,
other control characters get a `\u00xx` escape, everything else is literal. -/
def escapeChar (c : Nat) : List Nat :=
  if c = 34 then [92, 34]
  else if c = 92 then [92, 92]
  else if c = 8 then [92, 98]
  else if c = 9 then [92, 116]
  else if c = 10 then [92, 110]
  else if c = 12 then [92, 102]
  else if c = 13 then [92, 114]
  else if c < 32 then [92, 117, 48, 48, hexDigitChar (c / 16), hexDigitChar (c % 16)]
  else [c]

/-- Escaped body of a JSON string literal. -/
def escapeString (s : List Nat) : List Nat :=
  s.flatMap escapeChar

/-- A complete JSON string literal (quote, escaped body, quote). -/
def stringifyString (s : List Nat) : List Nat :=
  34 :: escapeString s ++ [34]

mutual

/-- Model of `JSON.stringify` (default options: no whitespace, insertion
order of object fields). -/
def stringifyJSON : Json → List Nat
  | .null => strCodes ("null")
  | .bool true => strCodes ("true")
  | .bool false => strCodes ("false")
  | .num n => stringifyNumber n
  | .str s => stringifyString s
  | .arr items => 91 :: (stringifyItems items ++ [93])
  | .obj fields => 123 :: (stringifyFields fields ++ [125])

/-- Comma-separated array elements. -/
def stringifyItems : List Json → List Nat
  | [] => []
  | [j] => stringifyJSON j
  | j :: js => stringifyJSON j ++ 44 :: stringifyItems js

/-- Comma-separated `key:value` object members. -/
def stringifyFields : List (List Nat × Json) → List Nat
  | [] => []
  | [(k, v)] => stringifyString k ++ 58 :: stringifyJSON v
  | (k, v) :: fs => stringifyString k ++ 58 :: stringifyJSON v ++ 44 :: stringifyFields fs

end

/-- Decimal digit character test. -/
def isDigit (c : Nat) : Bool :=
  48 ≤ c && c ≤ 57

/-- JSON insignificant whitespace skipping. -/
def skipWs (s : List Nat) : List Nat :=
  s.dropWhile (fun c => c == 32 || c == 9 || c == 10 || c == 13)

/-- Longest digit run at the front of the input. -/
def takeDigits : List Nat → List Nat × List Nat
  | [] => ([], [])
  | c :: rest =>
    if isDigit c then
      let p := takeDigits rest
      (c :: p.1, p.2)
    else ([], c :: rest)

/-- Value of one hexadecimal digit character. -/
def parseHex (c : Nat) : Option Nat :=
  if 48 ≤ c ∧ c ≤ 57 then some (c - 48)
  else if 97 ≤ c ∧ c ≤ 102 then some (c - 87)
  else if 65 ≤ c ∧ c ≤ 70 then some (c - 55)
  else none

/-- Character denoted by a single-letter backslash escape. -/
def escDecode (e : Nat) : Option Nat :=
  if e = 34 then some 34
  else if e = 92 then some 92
  else if e = 47 then some 47
  else if e = 98 then some 8
  else if e = 102 then some 12
  else if e = 110 then some 10
  else if e = 114 then some 13
  else if e = 116 then some 9
  else none

/-- JSON string-literal body parser: consumes up to and including the closing
quote, rejecting raw control characters and bad escapes. -/
def parseStringBody : List Nat → Option (List Nat × List Nat)
  | [] => none
  | c :: rest =>
    if c = 34 then some ([], rest)
    else if c = 92 then
      match rest with
      | [] => none
      | e :: rest1 =>
        if e = 117 then
          match rest1 with
          | h1 :: h2 :: h3 :: h4 :: rest2 =>
            match parseHex h1, parseHex h2, parseHex h3, parseHex h4 with
            | some d1, some d2, some d3, some d4 =>
              match parseStringBody rest2 with
              | some (s, r) => some ((((d1 * 16 + d2) * 16 + d3) * 16 + d4) :: s, r)
              | none => none
            | _, _, _, _ => none
          | _ => none
        else
          match escDecode e with
          | some d =>
            match parseStringBody rest1 with
            | some (s, r) => some (d :: s, r)
            | none => none
          | none => none
    else if c < 32 then none
    else
      match parseStringBody rest with
      | some (s, r) => some (c :: s, r)
      | none => none

/-- Integer part of a JSON numeral: a single zero, or a nonzero digit
followed by digits (a leading zero followed by a digit is a syntax error). -/
def parseIntPart : List Nat → Option (List Nat × List Nat)
  | [] => none
  | c :: rest =>
    if c = 48 then
      match rest with
      | d :: _ => if isDigit d then none else some ([48], rest)
      | [] => some ([48], [])
    else if isDigit c then
      let p := takeDigits rest
      some (c :: p.1, p.2)
    else none

/-- Optional fraction part of a JSON numeral. -/
def parseFracPart (s : List Nat) : Option (Option (List Nat) × List Nat) :=
  if s.head? = some 46 then
    let p := takeDigits s.tail
    if p.1.isEmpty then none else some (some p.1, p.2)
  else some (none, s)

/-- Optional exponent part of a JSON numeral. -/
def parseExpPart (s : List Nat) : Option (Option (List Nat) × List Nat) :=
  if s.head? = some 101 ∨ s.head? = some 69 then
    let r := s.tail
    if r.head? = some 43 then
      let p := takeDigits r.tail
      if p.1.isEmpty then none else some (some (43 :: p.1), p.2)
    else if r.head? = some 45 then
      let p := takeDigits r.tail
      if p.1.isEmpty then none else some (some (45 :: p.1), p.2)
    else
      let p := takeDigits r
      if p.1.isEmpty then none else some (some p.1, p.2)
  else some (none, s)

/-- JSON numeral parser, collecting the grammatical components. -/
def parseNumber (s : List Nat) : Option (JsonNumber × List Nat) :=
  let p : Bool × List Nat :=
    if s.head? = some 45 then (true, s.tail) else (false, s)
  match parseIntPart p.2 with
  | none => none
  | some (ints, s2) =>
    match parseFracPart s2 with
    | none => none
    | some (fr, s3) =>
      match parseExpPart s3 with
      | none => none
      | some (ex, s4) => some (⟨p.1, ints, fr, ex⟩, s4)

mutual

/-- Recursive-descent JSON value parser (model of the platform `JSON.parse`);
the fuel argument only bounds the nesting/recursion and is supplied as the
input length at top level. -/
def parseValue : Nat → List Nat → Option (Json × List Nat)
  | 0, _ => none
  | fuel + 1, s =>
    match skipWs s with
    | [] => none
    | c :: r =>
      if c = 34 then
        match parseStringBody r with
        | some (s1, rest) => some (.str s1, rest)
        | none => none
      else if c = 123 then
        match skipWs r with
        | 125 :: rest => some (.obj [], rest)
        | r1 =>
          match parseFields fuel r1 with
          | some (fs, rest) => some (.obj fs, rest)
          | none => none
      else if c = 91 then
        match skipWs r with
        | 93 :: rest => some (.arr [], rest)
        | r1 =>
          match parseItems fuel r1 with
          | some (vs, rest) => some (.arr vs, rest)
          | none => none
      else if c = 116 then
        match r with
        | 114 :: 117 :: 101 :: rest => some (.bool true, rest)
        | _ => none
      else if c = 102 then
        match r with
        | 97 :: 108 :: 115 :: 101 :: rest => some (.bool false, rest)
        | _ => none
      else if c = 110 then
        match r with
        | 117 :: 108 :: 108 :: rest => some (.null, rest)
        | _ => none
      else
        match parseNumber (c :: r) with
        | some (n, rest) => some (.num n, rest)
        | none => none

/-- One-or-more comma-separated array elements followed by a closing
bracket. -/
def parseItems : Nat → List Nat → Option (List Json × List Nat)
  | 0, _ => none
  | fuel + 1, s =>
    match parseValue fuel s with
    | none => none
    | some (v, rest) =>
      match skipWs rest with
      | 44 :: r2 =>
        match parseItems fuel r2 with
        | some (vs, rest2) => some (v :: vs, rest2)
        | none => none
      | 93 :: r2 => some ([v], r2)
      | _ => none

/-- One-or-more comma-separated object members followed by a closing
brace. -/
def parseFields : Nat → List Nat → Option (List (List Nat × Json) × List Nat)
  | 0, _ => none
  | fuel + 1, s =>
    match skipWs s with
    | 34 :: r =>
      match parseStringBody r with
      | none => none
      | some (key, r1) =>
        match skipWs r1 with
        | 58 :: r2 =>
          match parseValue fuel r2 with
          | none => none
          | some (v, r3) =>
            match skipWs r3 with
            | 44 :: r4 =>
              match parseFields fuel r4 with
              | some (fs, r5) => some ((key, v) :: fs, r5)
              | none => none
            | 125 :: r4 => some ([(key, v)], r4)
            | _ => none
        | _ => none
    | _ => none

end

/-- Model of `JSON.parse`: one value, then only trailing whitespace. -/
def parseJson (s : List Nat) : Option Json :=
  match parseValue (s.length + 1) s with
  | some (j, rest) => if skipWs rest = [] then some j else none
  | none => none

/-- Wire form of a `ClickPoint` as it appears inside a serialized payload
(`{x, y, order}`, steganography.ts lines 1-5), with JavaScript numbers in
their JSON-numeral representation. -/
structure ClickPointData where
  x : JsonNumber
  y : JsonNumber
  order : JsonNumber
deriving DecidableEq

/-- The `SteganographyData` payload (steganography.ts lines 7-10). -/
structure SteganographyData where
  message : List Nat
  clickSequence : List ClickPointData
deriving DecidableEq

/-- The JSON value of a click point, with JavaScript object-literal field
order `x`, `y`, `order` (as created by `normalizeClickPoint`). -/
def ClickPointData.toJson (p : ClickPointData) : Json :=
  .obj [(strCodes ("x"), .num p.x), (strCodes ("y"), .num p.y),
        (strCodes ("order"), .num p.order)]

/-- The JSON value of a payload, with field order `message`,
`clickSequence` (as created in `handleEncode`). -/
def SteganographyData.toJson (d : SteganographyData) : Json :=
  .obj [(strCodes ("message"), .str d.message),
        (strCodes ("clickSequence"), .arr (d.clickSequence.map ClickPointData.toJson))]

/-- `JSON.stringify(data)` (steganography.ts line 42). -/
def serializedData (data : SteganographyData) : List Nat :=
  stringifyJSON (SteganographyData.toJson data)

/-- Serialized bits plus the 16-bit delimiter (steganography.ts line 47). -/
def fullBinary (data : SteganographyData) : List Nat :=
  stringToBinary (serializedData data) ++ delimiter

/-- Model of `encodeMessage` (steganography.ts lines 29-72) on the pixel
buffer: result is the thrown error (if any) paired with the final buffer
contents.  The capacity test `fullBinary.length > pixels.length / 4`
(exact-rational division) is written as `pixels.length < 4 * length`.  The
throw happens before the write loop, so on failure the buffer is returned
untouched. -/
def encodeMessage (pixels : List Nat) (data : SteganographyData) :
    Option (List Nat) × List Nat :=
  if pixels.length < 4 * (fullBinary data).length then
    (some (strCodes ("Message too long for this image")), pixels)
  else
    (none, writeBits pixels (fullBinary data))

/-- Model of `decodeMessage` (steganography.ts lines 75-112): scan the red
LSBs, bail out on an empty bit string or empty decoded text, then hand the
text to `JSON.parse`; any parse exception is caught and turned into an
absent result.  The returned value is the raw parse result (the `as
SteganographyData` cast checks nothing). -/
def decodeMessage (pixels : List Nat) : Option Json :=
  let binaryData := scanLSB pixels []
  if binaryData = [] then none
  else
    let jsonString := binaryToString binaryData
    if jsonString = [] then none
    else parseJson jsonString

/-- Digit-run nonemptiness check used by numeral validity. -/
def digitsNE (l : List Nat) : Bool :=
  !l.isEmpty && l.all isDigit

/-- Valid integer-digit sequences of a JSON numeral. -/
def validIntDigits : List Nat → Bool
  | [] => false
  | c :: rest => if c = 48 then rest.isEmpty else (49 ≤ c && c ≤ 57) && rest.all isDigit

/-- Valid exponent character sequences (optional sign, then digits). -/
def validExpChars (l : List Nat) : Bool :=
  if l.head? = some 43 ∨ l.head? = some 45 then digitsNE l.tail else digitsNE l

/-- A `JsonNumber` whose components form a grammatical JSON numeral — true
of the representation of every JavaScript number. -/
def JsonNumber.valid (n : JsonNumber) : Bool :=
  validIntDigits n.intDigits &&
  (match n.frac with | none => true | some f => digitsNE f) &&
  (match n.exp with | none => true | some e => validExpChars e)

/-- All three numbers of a wire click point are grammatical numerals. -/
def ClickPointData.valid (p : ClickPointData) : Bool :=
  p.x.valid && p.y.valid && p.order.valid

/-- All click points of a payload carry grammatical numerals. -/
def SteganographyData.valid (d : SteganographyData) : Bool :=
  d.clickSequence.all ClickPointData.valid

/-- The input does not begin with a decimal digit. -/
def NotDigitStart (l : List Nat) : Prop :=
  ∀ c, l.head? = some c → isDigit c = false

/-- The input does not begin with any character that could extend a JSON
numeral (digit, decimal point, exponent letter). -/
def NotNumCont (l : List Nat) : Prop :=
  ∀ c, l.head? = some c → isDigit c = false ∧ c ≠ 46 ∧ c ≠ 101 ∧ c ≠ 69

/-- A well-formed RGBA pixel buffer: whole pixels, 8 bits per channel. -/
def IsPixelBuffer (pixels : List Nat) : Prop :=
  pixels.length % 4 = 0 ∧ ∀ b ∈ pixels, b < 256

/-- No prefix of the bit stream ends with the 16-bit delimiter. -/
def NoDelimiterHit (bits : List Nat) : Prop :=
  ∀ k, k ≤ bits.length → ¬ delimiter.isSuffixOf (bits.take k)

/-- No proper, nonempty prefix of the bit stream ends with the delimiter
(the full stream itself may, and for an encoded stream does). -/
def NoEarlyDelimiterHit (bits : List Nat) : Prop :=
  ∀ k, k < bits.length → 1 ≤ k → ¬ delimiter.isSuffixOf (bits.take k)

/-- `ClickPoint` as used by the UI and the matcher: coordinates are
JavaScript numbers, modelled as reals. -/
structure ClickPoint where
  x : ℝ
  y : ℝ
  order : ℕ

/-- Model of `normalizeClickPoint` (steganography.ts lines 115-127). -/
noncomputable def normalizeClickPoint (x y canvasWidth canvasHeight : ℝ) (order : ℕ) : ClickPoint :=
  ⟨x / canvasWidth, y / canvasHeight, order⟩

/-- Model of `denormalizeClickPoint` (steganography.ts lines 130-139). -/
noncomputable def denormalizeClickPoint (point : ClickPoint) (canvasWidth canvasHeight : ℝ) : ℝ × ℝ :=
  (point.x * canvasWidth, point.y * canvasHeight)

/-- The default value of the `tolerance` parameter of `isClickNearPoint`
(steganography.ts line 147). -/
noncomputable def defaultTolerance : ℝ := 30

/-- Model of `isClickNearPoint` (steganography.ts lines 141-153): Euclidean
distance at most `tolerance`. -/
def isClickNearPoint (clickX clickY targetX targetY : ℝ)
    (tolerance : ℝ := defaultTolerance) : Prop :=
  Real.sqrt ((clickX - targetX) ^ 2 + (clickY - targetY) ^ 2) ≤ tolerance

/-- Matcher session state of `ImageCanvas`: `currentStep` and the attempt
log `verificationAttempts`. -/
structure VerifyState where
  currentStep : ℕ
  verificationAttempts : List ClickPoint

/-- One call of `handleVerificationClick` (ImageCanvas, EncodeMode.tsx
lines 527-557), related to its final effect on the session state and the
argument passed to `onVerificationComplete` (`none` when the callback is
not invoked; the display-feedback delays are collapsed).  The guard ignores
clicks once every step is done; a near click appends the normalized attempt
and advances, completing with `true` when the last step is reached; a far
click appends transiently, then the timeout clears the log, resets the step
to 0 and completes with `false`. -/
inductive HandleVerificationClick (clickSequence : List ClickPoint) (w h : ℝ) :
    VerifyState → ℝ → ℝ → VerifyState → Option Bool → Prop where
  | outOfSteps (st : VerifyState) (x y : ℝ) :
      clickSequence.length ≤ st.currentStep →
      HandleVerificationClick clickSequence w h st x y st none
  | near (st : VerifyState) (x y : ℝ) (hlt : st.currentStep < clickSequence.length) :
      isClickNearPoint x y
        (denormalizeClickPoint (clickSequence.get ⟨st.currentStep, hlt⟩) w h).1
        (denormalizeClickPoint (clickSequence.get ⟨st.currentStep, hlt⟩) w h).2 25 →
      HandleVerificationClick clickSequence w h st x y
        ⟨st.currentStep + 1, st.verificationAttempts ++ [⟨x / w, y / h, st.currentStep⟩]⟩
        (if clickSequence.length ≤ st.currentStep + 1 then some true else none)
  | far (st : VerifyState) (x y : ℝ) (hlt : st.currentStep < clickSequence.length) :
      ¬ isClickNearPoint x y
        (denormalizeClickPoint (clickSequence.get ⟨st.currentStep, hlt⟩) w h).1
        (denormalizeClickPoint (clickSequence.get ⟨st.currentStep, hlt⟩) w h).2 25 →
      HandleVerificationClick clickSequence w h st x y ⟨0, []⟩ (some false)

/-- A verification session: a sequence of clicks processed by
`handleVerificationClick`, collecting the completion signals. -/
inductive VerifyRun (clickSequence : List ClickPoint) (w h : ℝ) :
    VerifyState → List (ℝ × ℝ) → List (Option Bool) → VerifyState → Prop where
  | nil (st : VerifyState) : VerifyRun clickSequence w h st [] [] st
  | cons {st st' st'' : VerifyState} {c : ℝ × ℝ} {cs : List (ℝ × ℝ)}
      {sig : Option Bool} {sigs : List (Option Bool)} :
      HandleVerificationClick clickSequence w h st c.1 c.2 st' sig →
      VerifyRun clickSequence w h st' cs sigs st'' →
      VerifyRun clickSequence w h st (c :: cs) (sig :: sigs) st''

/-- The decode-side UI state of `DecodeMode` (EncodeMode.tsx lines
226-232): loaded image pixels, extracted reference sequence, session flags,
revealed message and the failed-session counter. -/
structure DecodeState where
  image : Option (List Nat)
  clickSequence : List ClickPoint
  isVerifying : Bool
  verificationSuccess : Bool
  decodedMessage : Option Json
  attempts : ℕ

/-- JavaScript property read `j[key]` on a parsed JSON value (later
duplicate keys win, as in `JSON.parse`). -/
def jsonLookup (j : Json) (key : List Nat) : Option Json :=
  match j with
  | .obj fields => fields.foldl (fun acc kv => if kv.1 = key then some kv.2 else acc) none
  | _ => none

/-- Whether a numeral denotes zero (all mantissa digits zero). -/
def JsonNumber.isZero (n : JsonNumber) : Bool :=
  n.intDigits.all (· == 48) &&
  (match n.frac with | none => true | some f => f.all (· == 48))

/-- JavaScript truthiness of an (optional) JSON value. -/
def jsTruthy : Option Json → Bool
  | none => false
  | some .null => false
  | some (.bool b) => b
  | some (.num n) => !n.isZero
  | some (.str s) => !s.isEmpty
  | some (.arr _) => true
  | some (.obj _) => true

/-- The state produced by `resetAll` (EncodeMode.tsx lines 313-321). -/
def resetAllState : DecodeState :=
  ⟨none, [], false, false, none, 0⟩

/-- Model of `revealMessage` (EncodeMode.tsx lines 294-311): re-decode the
stored image and publish `data.message` when `data && data.message` is
truthy. -/
def revealMessage (st : DecodeState) : DecodeState :=
  match st.image with
  | none => st
  | some px =>
    match decodeMessage px with
    | some data =>
      let m := jsonLookup data (strCodes ("message"))
      if jsTruthy (some data) && jsTruthy m then { st with decodedMessage := m }
      else st
    | none => st

/-- Model of `handleVerificationComplete` (EncodeMode.tsx lines 276-292).
On failure the attempt counter is incremented, but the lockout test
`attempts >= 2` reads the not-yet-updated counter, so the third failure
(counter previously 2) triggers `resetAll`. -/
def handleVerificationComplete (st : DecodeState) (success : Bool) : DecodeState :=
  let st1 : DecodeState := { st with isVerifying := false }
  if success then
    revealMessage { st1 with verificationSuccess := true }
  else
    if 2 ≤ st.attempts then resetAllState
    else { st1 with attempts := st.attempts + 1 }

/-! ### Bit-string lemmas -/

theorem natToBitsAux_congr : ∀ (n f1 f2 : Nat), n ≤ f1 → n ≤ f2 →
    natToBitsAux f1 n = natToBitsAux f2 n := by
  intro n
  induction n using Nat.strong_induction_on with
  | _ n ih =>
    intro f1 f2 h1 h2
    cases n with
    | zero => cases f1 <;> cases f2 <;> rfl
    | succ m =>
      cases m with
      | zero => cases f1 <;> cases f2 <;> rfl
      | succ k =>
        obtain ⟨a, rfl⟩ : ∃ a, f1 = a + 1 := ⟨f1 - 1, by omega⟩
        obtain ⟨b, rfl⟩ : ∃ b, f2 = b + 1 := ⟨f2 - 1, by omega⟩
        show natToBitsAux a ((k + 2) / 2) ++ _ = natToBitsAux b ((k + 2) / 2) ++ _
        rw [ih ((k + 2) / 2) (by omega) a b (by omega) (by omega)]

theorem natToBits_eq (n : Nat) :
    natToBits n = if n < 2 then [n] else natToBits (n / 2) ++ [n % 2] := by
  cases n with
  | zero => rfl
  | succ m =>
    cases m with
    | zero => rfl
    | succ k =>
      rw [if_neg (by omega)]
      show natToBitsAux (k + 1) ((k + 2) / 2) ++ [(k + 2) % 2] = _
      rw [natToBitsAux_congr ((k + 2) / 2) (k + 1) ((k + 2) / 2) (by omega) (by omega)]
      rfl

theorem natToBits_ne_nil (n : Nat) : natToBits n ≠ [] := by
  rw [natToBits_eq]
  split <;> simp

theorem natToBits_lt_two (n : Nat) : ∀ b ∈ natToBits n, b < 2 := by
  induction n using Nat.strong_induction_on with
  | _ n ih =>
    rw [natToBits_eq]
    split
    · intro b hb
      simp only [List.mem_singleton] at hb
      omega
    · intro b hb
      rcases List.mem_append.mp hb with h | h
      · exact ih (n / 2) (by omega) b h
      · simp only [List.mem_singleton] at h
        omega

theorem bitsToNat_append_bit (l : List Nat) (b : Nat) :
    bitsToNat (l ++ [b]) = 2 * bitsToNat l + b := by
  simp [bitsToNat, List.foldl_append]

theorem bitsToNat_natToBits (n : Nat) : bitsToNat (natToBits n) = n := by
  induction n using Nat.strong_induction_on with
  | _ n ih =>
    rw [natToBits_eq]
    split
    · simp [bitsToNat]
    · rw [bitsToNat_append_bit, ih (n / 2) (by omega)]
      omega

theorem bitsToNat_replicate_zero (k : Nat) (l : List Nat) :
    bitsToNat (List.replicate k 0 ++ l) = bitsToNat l := by
  induction k with
  | zero => simp
  | succ k ih =>
    rw [List.replicate_succ, List.cons_append]
    simpa [bitsToNat] using ih

theorem natToBits_length_le (k : Nat) : ∀ n, n < 2 ^ (k + 1) → (natToBits n).length ≤ k + 1 := by
  induction k with
  | zero =>
    intro n hn
    rw [natToBits_eq, if_pos (by omega)]
    simp
  | succ k ih =>
    intro n hn
    rw [natToBits_eq]
    split
    · simp
    · have hlen := ih (n / 2) (by omega)
      simp only [List.length_append, List.length_singleton]
      omega

theorem charToBits_length {c : Nat} (h : c < 256) : (charToBits c).length = 8 := by
  have hle : (natToBits c).length ≤ 8 := natToBits_length_le 7 c (by omega)
  simp only [charToBits, List.length_append, List.length_replicate]
  omega

theorem charToBits_lt_two (c : Nat) : ∀ b ∈ charToBits c, b < 2 := by
  intro b hb
  simp only [charToBits, List.mem_append, List.mem_replicate] at hb
  rcases hb with h | h
  · omega
  · exact natToBits_lt_two c b h

theorem bitsToNat_charToBits (c : Nat) : bitsToNat (charToBits c) = c := by
  rw [charToBits, bitsToNat_replicate_zero, bitsToNat_natToBits]

theorem stringToBinary_cons (c : Nat) (s : List Nat) :
    stringToBinary (c :: s) = charToBits c ++ stringToBinary s := by
  simp [stringToBinary]

theorem stringToBinary_lt_two (s : List Nat) : ∀ b ∈ stringToBinary s, b < 2 := by
  intro b hb
  simp only [stringToBinary, List.mem_flatMap] at hb
  obtain ⟨c, _, hc⟩ := hb
  exact charToBits_lt_two c b hc

theorem chunks8_nil : chunks8 [] = [] := rfl

theorem chunks8_cons {g : List Nat} (rest : List Nat) (h : g.length = 8) :
    chunks8 (g ++ rest) = g :: chunks8 rest := by
  rcases g with _ | ⟨b1, g⟩
  · simp at h
  rcases g with _ | ⟨b2, g⟩
  · simp at h
  rcases g with _ | ⟨b3, g⟩
  · simp at h
  rcases g with _ | ⟨b4, g⟩
  · simp at h
  rcases g with _ | ⟨b5, g⟩
  · simp at h
  rcases g with _ | ⟨b6, g⟩
  · simp at h
  rcases g with _ | ⟨b7, g⟩
  · simp at h
  rcases g with _ | ⟨b8, g⟩
  · simp at h
  rcases g with _ | ⟨b9, g⟩
  · rfl
  · simp only [List.length_cons] at h
    omega

theorem binaryToString_stringToBinary (s : List Nat) (h : ∀ c ∈ s, c < 256) :
    binaryToString (stringToBinary s) = s := by
  induction s with
  | nil => simp [stringToBinary, binaryToString, chunks8_nil]
  | cons c s ih =>
    rw [stringToBinary_cons, binaryToString,
      chunks8_cons _ (charToBits_length (h c (by simp)))]
    simp only [List.map_cons, bitsToNat_charToBits]
    rw [← binaryToString]
    rw [ih (fun d hd => h d (by simp [hd]))]

theorem stringToBinary_length (s : List Nat) (h : ∀ c ∈ s, c < 256) :
    (stringToBinary s).length = 8 * s.length := by
  induction s with
  | nil => simp [stringToBinary]
  | cons c s ih =>
    rw [stringToBinary_cons]
    simp only [List.length_append, List.length_cons,
      charToBits_length (h c (by simp)), ih (fun d hd => h d (by simp [hd]))]
    ring

/-! ### Byte-level lemmas for the write loop -/

set_option maxRecDepth 4096 in
theorem byte_write_fin : ∀ r : Fin 256, ∀ b : Fin 2,
    ((r.val &&& 0xFE) ||| b.val) % 2 = b.val ∧
    ((r.val &&& 0xFE) ||| b.val) / 2 = r.val / 2 ∧
    ((r.val &&& 0xFE) ||| b.val) &&& 1 = b.val := by
  decide

theorem byte_write_mod (r b : Nat) (hr : r < 256) (hb : b < 2) :
    ((r &&& 0xFE) ||| b) % 2 = b :=
  (byte_write_fin ⟨r, hr⟩ ⟨b, hb⟩).1

theorem byte_write_div (r b : Nat) (hr : r < 256) (hb : b < 2) :
    ((r &&& 0xFE) ||| b) / 2 = r / 2 :=
  (byte_write_fin ⟨r, hr⟩ ⟨b, hb⟩).2.1

theorem byte_write_lsb (r b : Nat) (hr : r < 256) (hb : b < 2) :
    ((r &&& 0xFE) ||| b) &&& 1 = b :=
  (byte_write_fin ⟨r, hr⟩ ⟨b, hb⟩).2.2

/-! ### Write-loop lemmas -/

theorem writeBits_length : ∀ bits pixels : List Nat, (writeBits pixels bits).length = pixels.length := by
  intro bits
  induction bits with
  | nil => intro pixels; rfl
  | cons b bs ih =>
    intro pixels
    cases pixels with
    | nil => rfl
    | cons r rest =>
      simp only [writeBits, List.length_cons, List.length_append, List.length_take, ih,
        List.length_drop]
      omega

theorem writeBits_getD_frame : ∀ (bits pixels : List Nat) (j : Nat),
    (j % 4 ≠ 0 ∨ bits.length ≤ j / 4) →
    (writeBits pixels bits).getD j 0 = pixels.getD j 0 := by
  intro bits
  induction bits with
  | nil => intro pixels j _; rfl
  | cons b bs ih =>
    intro pixels j hj
    cases pixels with
    | nil => simp [writeBits]
    | cons r rest =>
      cases j with
      | zero =>
        simp only [Nat.zero_mod, ne_eq, not_true_eq_false, false_or, Nat.zero_div,
          List.length_cons] at hj
        omega
      | succ k =>
        simp only [writeBits, List.getD_cons_succ]
        by_cases hk3 : 3 ≤ rest.length
        · by_cases hklt : k < 3
          · rw [List.getD_append _ _ _ _ (by simp [List.length_take]; omega)]
            simp [List.getD, List.getElem?_take, hklt]
          · have h3 : (rest.take 3).length = 3 := by simp [List.length_take]; omega
            rw [List.getD_append_right _ _ _ _
              (by simp only [List.length_take]; omega : (rest.take 3).length ≤ k)]
            rw [h3, ih (rest.drop 3) (k - 3) ?side]
            · simp only [List.getD_eq_getElem?_getD, List.getElem?_drop]
              rw [show 3 + (k - 3) = k by omega]
            · case side =>
                rcases hj with hj | hj
                · exact Or.inl (by omega)
                · exact Or.inr (by simp only [List.length_cons] at hj ⊢; omega)
        · have hW : writeBits (rest.drop 3) bs = [] := by
            rw [List.drop_eq_nil_of_le (by omega)]
            cases bs <;> rfl
          rw [List.take_of_length_le (by omega : rest.length ≤ 3), hW, List.append_nil]

theorem writeBits_getD_written : ∀ (bits pixels : List Nat) (i : Nat),
    i < bits.length → 4 * bits.length ≤ pixels.length →
    (writeBits pixels bits).getD (4 * i) 0 =
      ((pixels.getD (4 * i) 0) &&& 0xFE) ||| bits.getD i 0 := by
  intro bits
  induction bits with
  | nil => intro pixels i hi _; simp at hi
  | cons b bs ih =>
    intro pixels i hi hlen
    cases pixels with
    | nil => simp [List.length_cons] at hlen
    | cons r rest =>
      simp only [List.length_cons] at hlen
      have hrest3 : 3 ≤ rest.length := by omega
      cases i with
      | zero => simp [writeBits]
      | succ k =>
        have h4 : 4 * (k + 1) = (3 + 4 * k) + 1 := by ring
        rw [h4]
        simp only [writeBits, List.getD_cons_succ]
        have h3 : (rest.take 3).length = 3 := by simp [List.length_take]; omega
        rw [List.getD_append_right _ _ _ _
          (by simp only [List.length_take]; omega : (rest.take 3).length ≤ 3 + 4 * k), h3]
        have hidx : 3 + 4 * k - 3 = 4 * k := by omega
        rw [hidx, ih (rest.drop 3) k (by simp at hi; omega)
          (by simp only [List.length_drop]; omega)]
        have hdrop : (rest.drop 3).getD (4 * k) 0 = rest.getD (3 + 4 * k) 0 := by
          simp [List.getD_eq_getElem?_getD, List.getElem?_drop]
        rw [hdrop]

/-! ### Scan-loop lemmas -/

theorem writeBits_nil : ∀ bits : List Nat, writeBits [] bits = [] := by
  intro bits
  cases bits <;> rfl

theorem scanStream_nil (acc : List Nat) : scanStream [] acc = acc := rfl

theorem scanStream_cons (b : Nat) (bs acc : List Nat) :
    scanStream (b :: bs) acc =
      if delimiter.isSuffixOf (acc ++ [b]) then
        (acc ++ [b]).take ((acc ++ [b]).length - 16)
      else scanStream bs (acc ++ [b]) := rfl

theorem scanLSB_nil (acc : List Nat) : scanLSB [] acc = acc := rfl

theorem scanLSB_cons (r : Nat) (rest acc : List Nat) :
    scanLSB (r :: rest) acc =
      if delimiter.isSuffixOf (acc ++ [r &&& 1]) then
        (acc ++ [r &&& 1]).take ((acc ++ [r &&& 1]).length - 16)
      else scanLSB (rest.drop 3) (acc ++ [r &&& 1]) := by
  rcases rest with _ | ⟨g, rest⟩
  · rfl
  rcases rest with _ | ⟨b, rest⟩
  · rfl
  rcases rest with _ | ⟨a, rest⟩
  · rfl
  · rfl

theorem redLSBs_nil : redLSBs [] = [] := rfl

theorem redLSBs_cons (r : Nat) (rest : List Nat) :
    redLSBs (r :: rest) = (r &&& 1) :: redLSBs (rest.drop 3) := by
  rcases rest with _ | ⟨g, rest⟩
  · rfl
  rcases rest with _ | ⟨b, rest⟩
  · rfl
  rcases rest with _ | ⟨a, rest⟩
  · rfl
  · rfl

theorem redLSBs_writeBits : ∀ (bits pixels : List Nat),
    (∀ x ∈ pixels, x < 256) → (∀ b ∈ bits, b < 2) → 4 * bits.length ≤ pixels.length →
    ∃ extra, redLSBs (writeBits pixels bits) = bits ++ extra := by
  intro bits
  induction bits with
  | nil => intro pixels _ _ _; exact ⟨redLSBs pixels, by simp [writeBits]⟩
  | cons b bs ih =>
    intro pixels hpx hbits hlen
    cases pixels with
    | nil => simp [List.length_cons] at hlen
    | cons r rest =>
      simp only [List.length_cons] at hlen
      have hrest3 : 3 ≤ rest.length := by omega
      obtain ⟨extra, hextra⟩ := ih (rest.drop 3)
        (fun x hx => hpx x (List.mem_cons_of_mem r (List.drop_subset 3 rest hx)))
        (fun x hx => hbits x (List.mem_cons_of_mem b hx))
        (by simp only [List.length_drop]; omega)
      refine ⟨extra, ?_⟩
      have h3 : (rest.take 3).length = 3 := by simp [List.length_take]; omega
      rw [writeBits, redLSBs_cons]
      rw [List.drop_left' h3, hextra,
        byte_write_lsb r b (hpx r (by simp)) (hbits b (by simp))]
      rfl

theorem scanLSB_eq_scanStream_aux : ∀ (n : Nat) (pixels : List Nat), pixels.length ≤ n →
    ∀ acc, scanLSB pixels acc = scanStream (redLSBs pixels) acc := by
  intro n
  induction n with
  | zero =>
    intro pixels hlen acc
    rw [List.length_eq_zero.mp (Nat.le_zero.mp hlen), scanLSB_nil, redLSBs_nil,
      scanStream_nil]
  | succ n ih =>
    intro pixels hlen acc
    cases pixels with
    | nil => rw [scanLSB_nil, redLSBs_nil, scanStream_nil]
    | cons r rest =>
      rw [scanLSB_cons, redLSBs_cons, scanStream_cons]
      by_cases hc : delimiter.isSuffixOf (acc ++ [r &&& 1])
      · rw [if_pos hc, if_pos hc]
      · rw [if_neg hc, if_neg hc]
        exact ih (rest.drop 3)
          (by simp only [List.length_drop]; simp only [List.length_cons] at hlen; omega)
          (acc ++ [r &&& 1])

theorem scanLSB_eq_scanStream (pixels acc : List Nat) :
    scanLSB pixels acc = scanStream (redLSBs pixels) acc :=
  scanLSB_eq_scanStream_aux pixels.length pixels le_rfl acc

theorem scanStream_no_hit : ∀ (bits acc : List Nat),
    (∀ k, 1 ≤ k → k ≤ bits.length → ¬ delimiter.isSuffixOf (acc ++ bits.take k)) →
    scanStream bits acc = acc ++ bits := by
  intro bits
  induction bits with
  | nil => intro acc _; simp [scanStream_nil]
  | cons b bs ih =>
    intro acc h
    rw [scanStream_cons]
    rw [if_neg (by simpa using h 1 le_rfl (by simp))]
    rw [ih (acc ++ [b]) ?_]
    · simp
    · intro k hk1 hk2
      have := h (k + 1) (by omega) (by simp only [List.length_cons]; omega)
      simpa [List.take_succ_cons, List.append_assoc] using this

theorem scanStream_hit : ∀ (bits acc extra : List Nat), bits ≠ [] →
    delimiter.isSuffixOf (acc ++ bits) →
    (∀ k, 1 ≤ k → k < bits.length → ¬ delimiter.isSuffixOf (acc ++ bits.take k)) →
    scanStream (bits ++ extra) acc = (acc ++ bits).take (acc.length + bits.length - 16) := by
  intro bits
  induction bits with
  | nil => intro acc extra hne; exact absurd rfl hne
  | cons b bs ih =>
    intro acc extra _ hend hpre
    cases bs with
    | nil =>
      rw [List.cons_append, List.nil_append, scanStream_cons]
      rw [if_pos (by simpa using hend)]
      simp [List.length_append]
    | cons b2 bs2 =>
      rw [List.cons_append, scanStream_cons]
      rw [if_neg (by simpa using hpre 1 le_rfl (by simp))]
      rw [ih (acc ++ [b]) extra (by simp) (by simpa [List.append_assoc] using hend) ?_]
      · rw [List.append_assoc, List.singleton_append]
        congr 1
        simp only [List.length_append, List.length_singleton, List.length_cons,
          List.length_nil]
        omega
      · intro k hk1 hk2
        have := hpre (k + 1) (by omega) (by simp only [List.length_cons] at hk2 ⊢; omega)
        simpa [List.take_succ_cons, List.append_assoc] using this

/-! ### JSON parser round-trip lemmas -/

theorem skipWs_cons (c : Nat) (r : List Nat) (h1 : c ≠ 32) (h2 : c ≠ 9)
    (h3 : c ≠ 10) (h4 : c ≠ 13) : skipWs (c :: r) = c :: r := by
  simp [skipWs, List.dropWhile_cons, beq_iff_eq, h1, h2, h3, h4]

theorem parseHex_hexDigitChar (d : Nat) (hd : d < 16) :
    parseHex (hexDigitChar d) = some d := by
  by_cases h : d < 10
  · rw [hexDigitChar, if_pos h, parseHex, if_pos (by omega)]
    congr 1
    omega
  · rw [hexDigitChar, if_neg h, parseHex, if_neg (by omega), if_pos (by omega)]
    congr 1
    omega

theorem parseStringBody_round : ∀ (s rest : List Nat),
    parseStringBody (escapeString s ++ 34 :: rest) = some (s, rest) := by
  intro s
  induction s with
  | nil =>
    intro rest
    rw [show escapeString [] ++ 34 :: rest = 34 :: rest from rfl, parseStringBody.eq_def]
    simp
  | cons c s ih =>
    intro rest
    have hesc : escapeString (c :: s) ++ 34 :: rest
        = escapeChar c ++ (escapeString s ++ 34 :: rest) := by
      simp [escapeString]
    rw [hesc]
    by_cases h34 : c = 34
    · subst h34
      rw [show escapeChar 34 ++ (escapeString s ++ 34 :: rest)
            = 92 :: 34 :: (escapeString s ++ 34 :: rest) from rfl, parseStringBody.eq_def]
      simp [escDecode, ih]
    · by_cases h92 : c = 92
      · subst h92
        rw [show escapeChar 92 ++ (escapeString s ++ 34 :: rest)
              = 92 :: 92 :: (escapeString s ++ 34 :: rest) from rfl, parseStringBody.eq_def]
        simp [escDecode, ih]
      · by_cases h8 : c = 8
        · subst h8
          rw [show escapeChar 8 ++ (escapeString s ++ 34 :: rest)
                = 92 :: 98 :: (escapeString s ++ 34 :: rest) from rfl, parseStringBody.eq_def]
          simp [escDecode, ih]
        · by_cases h9 : c = 9
          · subst h9
            rw [show escapeChar 9 ++ (escapeString s ++ 34 :: rest)
                  = 92 :: 116 :: (escapeString s ++ 34 :: rest) from rfl,
              parseStringBody.eq_def]
            simp [escDecode, ih]
          · by_cases h10 : c = 10
            · subst h10
              rw [show escapeChar 10 ++ (escapeString s ++ 34 :: rest)
                    = 92 :: 110 :: (escapeString s ++ 34 :: rest) from rfl,
                parseStringBody.eq_def]
              simp [escDecode, ih]
            · by_cases h12 : c = 12
              · subst h12
                rw [show escapeChar 12 ++ (escapeString s ++ 34 :: rest)
                      = 92 :: 102 :: (escapeString s ++ 34 :: rest) from rfl,
                  parseStringBody.eq_def]
                simp [escDecode, ih]
              · by_cases h13 : c = 13
                · subst h13
                  rw [show escapeChar 13 ++ (escapeString s ++ 34 :: rest)
                        = 92 :: 114 :: (escapeString s ++ 34 :: rest) from rfl,
                    parseStringBody.eq_def]
                  simp [escDecode, ih]
                · by_cases hlt : c < 32
                  · have hform : escapeChar c
                        = [92, 117, 48, 48, hexDigitChar (c / 16), hexDigitChar (c % 16)] := by
                      simp [escapeChar, h34, h92, h8, h9, h10, h12, h13, hlt]
                    have hh1 : parseHex (hexDigitChar (c / 16)) = some (c / 16) :=
                      parseHex_hexDigitChar _ (by omega)
                    have hh2 : parseHex (hexDigitChar (c % 16)) = some (c % 16) :=
                      parseHex_hexDigitChar _ (by omega)
                    rw [hform, List.cons_append, List.cons_append, List.cons_append,
                      List.cons_append, List.cons_append, List.cons_append,
                      List.nil_append, parseStringBody.eq_def]
                    have h48 : parseHex 48 = some 0 := rfl
                    simp [hh1, hh2, h48, ih]
                    omega
                  · have hform : escapeChar c = [c] := by
                      simp [escapeChar, h34, h92, h8, h9, h10, h12, h13, hlt]
                    rw [hform, List.cons_append, List.nil_append, parseStringBody.eq_def]
                    simp [h34, h92, hlt, ih]

theorem takeDigits_append : ∀ (ds rest : List Nat),
    (∀ d ∈ ds, isDigit d = true) → NotDigitStart rest →
    takeDigits (ds ++ rest) = (ds, rest) := by
  intro ds
  induction ds with
  | nil =>
    intro rest _ hrest
    cases rest with
    | nil => rfl
    | cons c r =>
      rw [List.nil_append, takeDigits]
      simp [hrest c rfl]
  | cons d ds ih =>
    intro rest hds hrest
    rw [List.cons_append, takeDigits]
    simp [hds d (by simp), ih rest (fun x hx => hds x (by simp [hx])) hrest]

theorem parseIntPart_round : ∀ (ints rest : List Nat), validIntDigits ints = true →
    NotDigitStart rest → parseIntPart (ints ++ rest) = some (ints, rest) := by
  intro ints rest hv hrest
  cases ints with
  | nil => simp [validIntDigits] at hv
  | cons c ds =>
    by_cases h48 : c = 48
    · subst h48
      have hds : ds = [] := by
        simpa [validIntDigits, List.isEmpty_iff] using hv
      subst hds
      rw [List.cons_append, List.nil_append, parseIntPart.eq_def]
      cases rest with
      | nil => simp
      | cons d r => simp [hrest d rfl]
    · have hv' : (49 ≤ c ∧ c ≤ 57) ∧ ∀ d ∈ ds, isDigit d = true := by
        simpa [validIntDigits, h48] using hv
      have hdc : isDigit c = true := by
        simp only [isDigit, Bool.and_eq_true, decide_eq_true_eq]
        omega
      rw [List.cons_append, parseIntPart.eq_def]
      simp [h48, hdc, takeDigits_append ds rest hv'.2 hrest]

theorem digitsNE_parts {f : List Nat} (hf : digitsNE f = true) :
    f ≠ [] ∧ ∀ d ∈ f, isDigit d = true := by
  simpa [digitsNE, Bool.not_eq_true', List.isEmpty_eq_false] using hf

theorem parseFracPart_none (s : List Nat) (h : s.head? ≠ some 46) :
    parseFracPart s = some (none, s) := by
  rw [parseFracPart, if_neg h]

theorem parseFracPart_round (f rest : List Nat) (hf : digitsNE f = true)
    (hrest : NotDigitStart rest) :
    parseFracPart (46 :: (f ++ rest)) = some (some f, rest) := by
  obtain ⟨hne, hdig⟩ := digitsNE_parts hf
  rw [parseFracPart]
  simp [takeDigits_append f rest hdig hrest, List.isEmpty_iff, hne]

theorem parseExpPart_none (s : List Nat) (h1 : s.head? ≠ some 101)
    (h2 : s.head? ≠ some 69) : parseExpPart s = some (none, s) := by
  rw [parseExpPart, if_neg (by simp [h1, h2])]

theorem parseExpPart_round (e rest : List Nat) (he : validExpChars e = true)
    (hrest : NotDigitStart rest) :
    parseExpPart (101 :: (e ++ rest)) = some (some e, rest) := by
  rw [parseExpPart]
  cases e with
  | nil => simp [validExpChars, digitsNE] at he
  | cons d ds =>
    by_cases h43 : d = 43
    · subst h43
      have he' : digitsNE ds = true := by simpa [validExpChars] using he
      obtain ⟨hne, hdig⟩ := digitsNE_parts he'
      simp [takeDigits_append ds rest hdig hrest, List.isEmpty_iff, hne]
    · by_cases h45 : d = 45
      · subst h45
        have he' : digitsNE ds = true := by simpa [validExpChars] using he
        obtain ⟨hne, hdig⟩ := digitsNE_parts he'
        simp [takeDigits_append ds rest hdig hrest, List.isEmpty_iff, hne]
      · have he' : digitsNE (d :: ds) = true := by
          simpa [validExpChars, h43, h45] using he
        obtain ⟨hne, hdig⟩ := digitsNE_parts he'
        have htd := takeDigits_append (d :: ds) rest hdig hrest
        rw [List.cons_append] at htd
        simp [h43, h45, htd, List.isEmpty_iff, hne]

theorem parseNumber_round (n : JsonNumber) (rest : List Nat) (hv : n.valid = true)
    (hrest : NotNumCont rest) :
    parseNumber (stringifyNumber n ++ rest) = some (n, rest) := by
  obtain ⟨neg, ints, fr, ex⟩ := n
  have hrestD : NotDigitStart rest := fun c hc => (hrest c hc).1
  simp only [JsonNumber.valid, Bool.and_eq_true] at hv
  obtain ⟨⟨hvi, hvf⟩, hve⟩ := hv
  have hexp : parseExpPart (expChars ex ++ rest) = some (ex, rest) := by
    cases ex with
    | none =>
      rw [expChars, List.nil_append]
      exact parseExpPart_none rest (fun h => (hrest 101 h).2.2.1 rfl)
        (fun h => (hrest 69 h).2.2.2 rfl)
    | some e =>
      rw [expChars, List.cons_append]
      exact parseExpPart_round e rest (by simpa using hve) hrestD
  have hnd3 : NotDigitStart (expChars ex ++ rest) := by
    cases ex with
    | none => rw [expChars, List.nil_append]; exact hrestD
    | some e =>
      intro c hc
      rw [expChars, List.cons_append, List.head?_cons] at hc
      cases hc
      rfl
  have h46 : (expChars ex ++ rest).head? ≠ some 46 := by
    cases ex with
    | none =>
      rw [expChars, List.nil_append]
      intro h
      exact (hrest 46 h).2.1 rfl
    | some e =>
      rw [expChars, List.cons_append, List.head?_cons]
      simp
  have hfr : parseFracPart (fracChars fr ++ (expChars ex ++ rest))
      = some (fr, expChars ex ++ rest) := by
    cases fr with
    | none =>
      rw [fracChars, List.nil_append]
      exact parseFracPart_none _ h46
    | some f =>
      rw [fracChars, List.cons_append]
      exact parseFracPart_round f _ (by simpa using hvf) hnd3
  have hnd2 : NotDigitStart (fracChars fr ++ (expChars ex ++ rest)) := by
    cases fr with
    | none => rw [fracChars, List.nil_append]; exact hnd3
    | some f =>
      intro c hc
      rw [fracChars, List.cons_append, List.head?_cons] at hc
      cases hc
      rfl
  have hint := parseIntPart_round ints _ hvi hnd2
  simp only [stringifyNumber, List.append_assoc]
  cases neg with
  | true =>
    rw [if_pos rfl, List.cons_append, List.nil_append]
    simp [parseNumber, hint, hfr, hexp]
  | false =>
    rw [if_neg (by simp), List.nil_append]
    cases ints with
    | nil => simp [validIntDigits] at hvi
    | cons c ds =>
      have hc45 : c ≠ 45 := by
        intro h
        subst h
        simp [validIntDigits] at hvi
      rw [List.cons_append] at hint ⊢
      simp [parseNumber, hc45, hint, hfr, hexp]

theorem notNumCont_cons (c : Nat) (r : List Nat) (h1 : isDigit c = false)
    (h2 : c ≠ 46) (h3 : c ≠ 101) (h4 : c ≠ 69) : NotNumCont (c :: r) := by
  intro d hd
  rw [List.head?_cons] at hd
  cases hd
  exact ⟨h1, h2, h3, h4⟩

theorem parseValue_str (f : Nat) (s rest : List Nat) :
    parseValue (f + 1) (stringifyString s ++ rest) = some (.str s, rest) := by
  have hs : stringifyString s ++ rest = 34 :: (escapeString s ++ 34 :: rest) := by
    simp [stringifyString]
  rw [hs, parseValue.eq_def]
  simp only []
  rw [skipWs_cons 34 _ (by omega) (by omega) (by omega) (by omega)]
  simp [parseStringBody_round]

theorem parseValue_num (f : Nat) (n : JsonNumber) (rest : List Nat)
    (hv : n.valid = true) (hrest : NotNumCont rest) :
    parseValue (f + 1) (stringifyNumber n ++ rest) = some (.num n, rest) := by
  have hhead : ∃ c r, stringifyNumber n ++ rest = c :: r ∧ (c = 45 ∨ (48 ≤ c ∧ c ≤ 57)) := by
    have hvi : validIntDigits n.intDigits = true := by
      simp only [JsonNumber.valid, Bool.and_eq_true] at hv
      exact hv.1.1
    rcases hints : n.intDigits with _ | ⟨c, ds⟩
    · rw [hints] at hvi
      simp [validIntDigits] at hvi
    · have hc : 48 ≤ c ∧ c ≤ 57 := by
        rw [hints] at hvi
        by_cases h48 : c = 48
        · omega
        · have := (by simpa [validIntDigits, h48] using hvi :
            (49 ≤ c ∧ c ≤ 57) ∧ ∀ d ∈ ds, isDigit d = true)
          omega
      cases hneg : n.neg with
      | true =>
        refine ⟨45, n.intDigits ++ fracChars n.frac ++ expChars n.exp ++ rest, ?_, Or.inl rfl⟩
        simp [stringifyNumber, hneg, List.append_assoc]
      | false =>
        refine ⟨c, ds ++ fracChars n.frac ++ expChars n.exp ++ rest, ?_, Or.inr hc⟩
        simp [stringifyNumber, hneg, hints, List.append_assoc]
  obtain ⟨c, r, hsplit, hc⟩ := hhead
  have hb : c = 45 ∨ (48 ≤ c ∧ c ≤ 57) := hc
  have hcb : 45 ≤ c ∧ c ≤ 57 := by rcases hb with h | h <;> omega
  rw [hsplit, parseValue.eq_def]
  simp only []
  rw [skipWs_cons c r (by omega) (by omega) (by omega) (by omega)]
  have e34 : ¬ c = 34 := by omega
  have e123 : ¬ c = 123 := by omega
  have e91 : ¬ c = 91 := by omega
  have e116 : ¬ c = 116 := by omega
  have e102 : ¬ c = 102 := by omega
  have e110 : ¬ c = 110 := by omega
  simp only [if_neg e34, if_neg e123, if_neg e91, if_neg e116, if_neg e102, if_neg e110]
  rw [← hsplit, parseNumber_round n rest hv hrest]

theorem parseValue_obj (f : Nat) (r t : List Nat) (fs : List (List Nat × Json))
    (rest : List Nat) (h0 : skipWs r = 34 :: t)
    (h1 : parseFields f (34 :: t) = some (fs, rest)) :
    parseValue (f + 1) (123 :: r) = some (.obj fs, rest) := by
  rw [parseValue.eq_def]
  simp only []
  rw [skipWs_cons 123 _ (by omega) (by omega) (by omega) (by omega)]
  simp [h0, h1]

theorem parseValue_arr_empty (f : Nat) (r rest : List Nat)
    (h0 : skipWs r = 93 :: rest) :
    parseValue (f + 1) (91 :: r) = some (.arr [], rest) := by
  rw [parseValue.eq_def]
  simp only []
  rw [skipWs_cons 91 _ (by omega) (by omega) (by omega) (by omega)]
  simp [h0]

theorem parseValue_arr (f : Nat) (r t : List Nat) (vs : List Json)
    (rest : List Nat) (h0 : skipWs r = 123 :: t)
    (h1 : parseItems f (123 :: t) = some (vs, rest)) :
    parseValue (f + 1) (91 :: r) = some (.arr vs, rest) := by
  rw [parseValue.eq_def]
  simp only []
  rw [skipWs_cons 91 _ (by omega) (by omega) (by omega) (by omega)]
  simp [h0, h1]

theorem parseFields_last (f : Nat) (s t k r1 r2 r4 : List Nat) (v : Json)
    (r3 : List Nat) (h0 : skipWs s = 34 :: t)
    (h1 : parseStringBody t = some (k, r1)) (h2 : skipWs r1 = 58 :: r2)
    (h3 : parseValue f r2 = some (v, r3)) (h4 : skipWs r3 = 125 :: r4) :
    parseFields (f + 1) s = some ([(k, v)], r4) := by
  rw [parseFields.eq_def]
  simp only []
  simp [h0, h1, h2, h3, h4]

theorem parseFields_cons (f : Nat) (s t k r1 r2 r4 r5 : List Nat) (v : Json)
    (r3 : List Nat) (fs : List (List Nat × Json)) (h0 : skipWs s = 34 :: t)
    (h1 : parseStringBody t = some (k, r1)) (h2 : skipWs r1 = 58 :: r2)
    (h3 : parseValue f r2 = some (v, r3)) (h4 : skipWs r3 = 44 :: r4)
    (h5 : parseFields f r4 = some (fs, r5)) :
    parseFields (f + 1) s = some ((k, v) :: fs, r5) := by
  rw [parseFields.eq_def]
  simp only []
  simp [h0, h1, h2, h3, h4, h5]

theorem parseItems_last (f : Nat) (s r r2 : List Nat) (v : Json)
    (h3 : parseValue f s = some (v, r)) (h4 : skipWs r = 93 :: r2) :
    parseItems (f + 1) s = some ([v], r2) := by
  rw [parseItems.eq_def]
  simp only []
  simp [h3, h4]

theorem parseItems_cons (f : Nat) (s r r2 r3 : List Nat) (v : Json) (vs : List Json)
    (h3 : parseValue f s = some (v, r)) (h4 : skipWs r = 44 :: r2)
    (h5 : parseItems f r2 = some (vs, r3)) :
    parseItems (f + 1) s = some (v :: vs, r3) := by
  rw [parseItems.eq_def]
  simp only []
  simp [h3, h4, h5]

theorem parseValue_point (f : Nat) (p : ClickPointData) (rest : List Nat)
    (hv : p.valid = true) :
    parseValue (f + 5) (stringifyJSON p.toJson ++ rest) = some (p.toJson, rest) := by
  have hx : p.x.valid = true := by
    simp only [ClickPointData.valid, Bool.and_eq_true] at hv
    exact hv.1.1
  have hy : p.y.valid = true := by
    simp only [ClickPointData.valid, Bool.and_eq_true] at hv
    exact hv.1.2
  have ho : p.order.valid = true := by
    simp only [ClickPointData.valid, Bool.and_eq_true] at hv
    exact hv.2
  have h125 : NotNumCont (125 :: rest) :=
    notNumCont_cons 125 rest rfl (by omega) (by omega) (by omega)
  have horder : parseFields (f + 1 + 1)
      (34 :: (escapeString (strCodes ("order")) ++ 34 :: 58 ::
        (stringifyNumber p.order ++ 125 :: rest)))
      = some ([(strCodes ("order"), Json.num p.order)], rest) :=
    parseFields_last (f + 1) _ _ _ _ _ _ _ _
      (skipWs_cons 34 _ (by omega) (by omega) (by omega) (by omega))
      (parseStringBody_round _ _)
      (skipWs_cons 58 _ (by omega) (by omega) (by omega) (by omega))
      (parseValue_num f p.order (125 :: rest) ho h125)
      (skipWs_cons 125 _ (by omega) (by omega) (by omega) (by omega))
  have h44o : NotNumCont (44 :: (34 :: (escapeString (strCodes ("order")) ++ 34 :: 58 ::
      (stringifyNumber p.order ++ 125 :: rest)))) :=
    notNumCont_cons 44 _ rfl (by omega) (by omega) (by omega)
  have hymem : parseFields (f + 1 + 1 + 1)
      (34 :: (escapeString (strCodes ("y")) ++ 34 :: 58 ::
        (stringifyNumber p.y ++ 44 :: (34 :: (escapeString (strCodes ("order")) ++ 34 :: 58 ::
          (stringifyNumber p.order ++ 125 :: rest))))))
      = some ([(strCodes ("y"), Json.num p.y), (strCodes ("order"), Json.num p.order)],
          rest) :=
    parseFields_cons (f + 1 + 1) _ _ _ _ _ _ _ _ _ _
      (skipWs_cons 34 _ (by omega) (by omega) (by omega) (by omega))
      (parseStringBody_round _ _)
      (skipWs_cons 58 _ (by omega) (by omega) (by omega) (by omega))
      (parseValue_num (f + 1) p.y _ hy h44o)
      (skipWs_cons 44 _ (by omega) (by omega) (by omega) (by omega))
      horder
  have h44y : NotNumCont (44 :: (34 :: (escapeString (strCodes ("y")) ++ 34 :: 58 ::
      (stringifyNumber p.y ++ 44 :: (34 :: (escapeString (strCodes ("order")) ++ 34 :: 58 ::
        (stringifyNumber p.order ++ 125 :: rest))))))) :=
    notNumCont_cons 44 _ rfl (by omega) (by omega) (by omega)
  have hxmem : parseFields (f + 1 + 1 + 1 + 1)
      (34 :: (escapeString (strCodes ("x")) ++ 34 :: 58 ::
        (stringifyNumber p.x ++ 44 :: (34 :: (escapeString (strCodes ("y")) ++ 34 :: 58 ::
          (stringifyNumber p.y ++ 44 :: (34 :: (escapeString (strCodes ("order")) ++ 34 :: 58 ::
            (stringifyNumber p.order ++ 125 :: rest)))))))))
      = some ([(strCodes ("x"), Json.num p.x), (strCodes ("y"), Json.num p.y),
          (strCodes ("order"), Json.num p.order)], rest) :=
    parseFields_cons (f + 1 + 1 + 1) _ _ _ _ _ _ _ _ _ _
      (skipWs_cons 34 _ (by omega) (by omega) (by omega) (by omega))
      (parseStringBody_round _ _)
      (skipWs_cons 58 _ (by omega) (by omega) (by omega) (by omega))
      (parseValue_num (f + 1 + 1) p.x _ hx h44y)
      (skipWs_cons 44 _ (by omega) (by omega) (by omega) (by omega))
      hymem
  have hshape : stringifyJSON p.toJson ++ rest
      = 123 :: (34 :: (escapeString (strCodes ("x")) ++ 34 :: 58 ::
        (stringifyNumber p.x ++ 44 :: (34 :: (escapeString (strCodes ("y")) ++ 34 :: 58 ::
          (stringifyNumber p.y ++ 44 :: (34 :: (escapeString (strCodes ("order")) ++ 34 :: 58 ::
            (stringifyNumber p.order ++ 125 :: rest))))))))) := by
    simp [ClickPointData.toJson, stringifyJSON, stringifyFields, stringifyString]
  rw [show f + 5 = f + 1 + 1 + 1 + 1 + 1 from by omega, hshape]
  exact parseValue_obj (f + 1 + 1 + 1 + 1) _ _ _ _
    (skipWs_cons 34 _ (by omega) (by omega) (by omega) (by omega)) hxmem

theorem parseItems_points : ∀ (ps : List ClickPointData) (f : Nat) (rest : List Nat),
    (∀ p ∈ ps, p.valid = true) → ps ≠ [] → ps.length + 6 ≤ f →
    parseItems f (stringifyItems (ps.map ClickPointData.toJson) ++ 93 :: rest)
      = some (ps.map ClickPointData.toJson, rest) := by
  intro ps
  induction ps with
  | nil => intro f rest _ hne _; exact absurd rfl hne
  | cons p ps ih =>
    intro f rest hv _ hf
    cases ps with
    | nil =>
      obtain ⟨g, rfl⟩ : ∃ g, f = g + 5 + 1 := ⟨f - 6, by omega⟩
      simp only [List.map_cons, List.map_nil]
      rw [show stringifyItems [ClickPointData.toJson p] = stringifyJSON p.toJson by
        simp [stringifyItems]]
      exact parseItems_last (g + 5) _ _ _ _
        (parseValue_point g p (93 :: rest) (hv p (by simp)))
        (skipWs_cons 93 _ (by omega) (by omega) (by omega) (by omega))
    | cons q qs =>
      obtain ⟨g, rfl⟩ : ∃ g, f = g + 5 + 1 := ⟨f - 6, by omega⟩
      simp only [List.map_cons]
      rw [show stringifyItems (ClickPointData.toJson p :: ClickPointData.toJson q ::
          qs.map ClickPointData.toJson)
          = stringifyJSON p.toJson ++ 44 :: stringifyItems (ClickPointData.toJson q ::
            qs.map ClickPointData.toJson) by
        simp [stringifyItems]]
      rw [List.append_assoc, List.cons_append]
      refine parseItems_cons (g + 5) _ _ _ _ _ _
        (parseValue_point g p _ (hv p (by simp)))
        (skipWs_cons 44 _ (by omega) (by omega) (by omega) (by omega)) ?_
      have hit := ih (g + 5) rest (fun x hx => hv x (by simp [hx]))
        (by simp) (by simp only [List.length_cons] at hf ⊢; omega)
      simpa using hit

theorem parseValue_arr_points (g : Nat) (ps : List ClickPointData) (rest : List Nat)
    (hv : ∀ p ∈ ps, p.valid = true) (hg : ps.length + 6 ≤ g) :
    parseValue (g + 1)
      (91 :: (stringifyItems (ps.map ClickPointData.toJson) ++ 93 :: rest))
      = some (.arr (ps.map ClickPointData.toJson), rest) := by
  cases ps with
  | nil =>
    simp only [List.map_nil]
    rw [show stringifyItems ([] : List Json) = [] by simp [stringifyItems],
      List.nil_append]
    exact parseValue_arr_empty g _ _
      (skipWs_cons 93 _ (by omega) (by omega) (by omega) (by omega))
  | cons p ps =>
    have hhd : (stringifyItems ((p :: ps).map ClickPointData.toJson)).head? = some 123 := by
      cases ps <;>
        simp [stringifyItems, ClickPointData.toJson, stringifyJSON]
    cases hSI : stringifyItems ((p :: ps).map ClickPointData.toJson) with
    | nil => rw [hSI] at hhd; simp at hhd
    | cons c u =>
      rw [hSI, List.head?_cons] at hhd
      have hc : c = 123 := Option.some.inj hhd
      subst hc
      have hit := parseItems_points (p :: ps) g rest hv (by simp) hg
      rw [hSI, List.cons_append] at hit
      rw [List.cons_append]
      exact parseValue_arr g _ _ _ _
        (skipWs_cons 123 _ (by omega) (by omega) (by omega) (by omega)) hit

theorem payload_shape (d : SteganographyData) (rest : List Nat) :
    stringifyJSON d.toJson ++ rest
      = 123 :: (34 :: (escapeString (strCodes ("message")) ++ 34 :: 58 ::
        (stringifyString d.message ++ 44 :: (34 :: (escapeString (strCodes ("clickSequence"))
          ++ 34 :: 58 :: (91 :: (stringifyItems (d.clickSequence.map ClickPointData.toJson)
            ++ 93 :: (125 :: rest)))))))) := by
  simp [SteganographyData.toJson, stringifyJSON, stringifyFields, stringifyString]

theorem parseValue_payload (f : Nat) (d : SteganographyData) (rest : List Nat)
    (hv : d.valid = true) (hf : d.clickSequence.length + 10 ≤ f) :
    parseValue f (stringifyJSON d.toJson ++ rest) = some (d.toJson, rest) := by
  obtain ⟨g, rfl⟩ : ∃ g, f = g + 1 + 1 + 1 + 1 := ⟨f - 4, by omega⟩
  have hvs : ∀ p ∈ d.clickSequence, p.valid = true := by
    simpa [SteganographyData.valid, List.all_eq_true] using hv
  have harr : parseValue (g + 1)
      (91 :: (stringifyItems (d.clickSequence.map ClickPointData.toJson) ++ 93 ::
        (125 :: rest)))
      = some (.arr (d.clickSequence.map ClickPointData.toJson), 125 :: rest) :=
    parseValue_arr_points g d.clickSequence (125 :: rest) hvs (by omega)
  have hcsmem : parseFields (g + 1 + 1)
      (34 :: (escapeString (strCodes ("clickSequence")) ++ 34 :: 58 ::
        (91 :: (stringifyItems (d.clickSequence.map ClickPointData.toJson) ++ 93 ::
          (125 :: rest)))))
      = some ([(strCodes ("clickSequence"),
          Json.arr (d.clickSequence.map ClickPointData.toJson))], rest) :=
    parseFields_last (g + 1) _ _ _ _ _ _ _ _
      (skipWs_cons 34 _ (by omega) (by omega) (by omega) (by omega))
      (parseStringBody_round _ _)
      (skipWs_cons 58 _ (by omega) (by omega) (by omega) (by omega))
      harr
      (skipWs_cons 125 _ (by omega) (by omega) (by omega) (by omega))
  have hmmem : parseFields (g + 1 + 1 + 1)
      (34 :: (escapeString (strCodes ("message")) ++ 34 :: 58 ::
        (stringifyString d.message ++ 44 :: (34 :: (escapeString (strCodes ("clickSequence"))
          ++ 34 :: 58 :: (91 :: (stringifyItems (d.clickSequence.map ClickPointData.toJson)
            ++ 93 :: (125 :: rest))))))))
      = some ([(strCodes ("message"), Json.str d.message),
          (strCodes ("clickSequence"),
            Json.arr (d.clickSequence.map ClickPointData.toJson))], rest) :=
    parseFields_cons (g + 1 + 1) _ _ _ _ _ _ _ _ _ _
      (skipWs_cons 34 _ (by omega) (by omega) (by omega) (by omega))
      (parseStringBody_round _ _)
      (skipWs_cons 58 _ (by omega) (by omega) (by omega) (by omega))
      (parseValue_str (g + 1) d.message _)
      (skipWs_cons 44 _ (by omega) (by omega) (by omega) (by omega))
      hcsmem
  rw [payload_shape]
  exact parseValue_obj (g + 1 + 1 + 1) _ _ _ _
    (skipWs_cons 34 _ (by omega) (by omega) (by omega) (by omega)) hmmem

theorem stringifyItems_length_ge (js : List Json)
    (h : ∀ j ∈ js, 1 ≤ (stringifyJSON j).length) :
    js.length ≤ (stringifyItems js).length := by
  induction js with
  | nil => simp
  | cons j js ih =>
    cases js with
    | nil =>
      have h1 := h j (by simp)
      rw [show stringifyItems [j] = stringifyJSON j by simp [stringifyItems]]
      simpa using h1
    | cons j2 js2 =>
      rw [show stringifyItems (j :: j2 :: js2)
          = stringifyJSON j ++ 44 :: stringifyItems (j2 :: js2) by simp [stringifyItems]]
      have h1 := h j (by simp)
      have h2 := ih (fun x hx => h x (by simp [hx]))
      simp only [List.length_append, List.length_cons] at *
      omega

theorem point_stringify_length (p : ClickPointData) :
    1 ≤ (stringifyJSON p.toJson).length := by
  rw [show stringifyJSON p.toJson
      = 123 :: (stringifyFields [(strCodes ("x"), Json.num p.x),
          (strCodes ("y"), Json.num p.y), (strCodes ("order"), Json.num p.order)]
        ++ [125]) by simp [ClickPointData.toJson, stringifyJSON]]
  simp

theorem payload_length (d : SteganographyData) :
    d.clickSequence.length + 10 ≤ (stringifyJSON d.toJson).length + 1 := by
  have h := payload_shape d []
  have hlen := congrArg List.length h
  have hS : (d.clickSequence.map ClickPointData.toJson).length
      ≤ (stringifyItems (d.clickSequence.map ClickPointData.toJson)).length :=
    stringifyItems_length_ge _ (by
      intro j hj
      obtain ⟨p, _, rfl⟩ := List.mem_map.mp hj
      exact point_stringify_length p)
  simp only [List.length_append, List.length_cons, List.length_nil, List.length_map]
    at hlen hS
  omega

theorem parseJson_payload (d : SteganographyData) (hv : d.valid = true) :
    parseJson (stringifyJSON d.toJson) = some d.toJson := by
  rw [parseJson]
  have h := parseValue_payload ((stringifyJSON d.toJson).length + 1) d [] hv
    (payload_length d)
  rw [List.append_nil] at h
  rw [h]
  simp [skipWs]

/-! ### Codec round-trip chain -/

theorem fullBinary_lt_two (data : SteganographyData) : ∀ b ∈ fullBinary data, b < 2 := by
  intro b hb
  rw [fullBinary] at hb
  rcases List.mem_append.mp hb with h | h
  · exact stringToBinary_lt_two _ b h
  · simp [delimiter] at h
    omega

theorem fullBinary_ends (data : SteganographyData) :
    delimiter.isSuffixOf (fullBinary data) = true := by
  rw [List.isSuffixOf_iff_suffix]
  exact ⟨stringToBinary (serializedData data), by rw [fullBinary]⟩

theorem fullBinary_length (data : SteganographyData) :
    (fullBinary data).length = (stringToBinary (serializedData data)).length + 16 := by
  simp [fullBinary, delimiter]

theorem serializedData_cons (data : SteganographyData) :
    ∃ t, serializedData data = 123 :: t := by
  have h := payload_shape data []
  rw [List.append_nil] at h
  exact ⟨_, h⟩

theorem scan_of_encoded (pixels : List Nat) (data : SteganographyData)
    (hbytes : ∀ b ∈ pixels, b < 256)
    (hcap : 4 * (fullBinary data).length ≤ pixels.length)
    (hearly : NoEarlyDelimiterHit (fullBinary data)) :
    scanLSB (writeBits pixels (fullBinary data)) []
      = stringToBinary (serializedData data) := by
  obtain ⟨extra, hextra⟩ := redLSBs_writeBits (fullBinary data) pixels hbytes
    (fullBinary_lt_two data) hcap
  rw [scanLSB_eq_scanStream, hextra,
    scanStream_hit (fullBinary data) [] extra
      (by
        intro h
        have := congrArg List.length h
        rw [fullBinary_length] at this
        simp at this)
      (by simpa using fullBinary_ends data)
      (fun k hk1 hk2 => by simpa using hearly k hk2 hk1)]
  rw [List.nil_append, List.length_nil, Nat.zero_add, fullBinary_length]
  rw [show (stringToBinary (serializedData data)).length + 16 - 16
      = (stringToBinary (serializedData data)).length by omega]
  rw [fullBinary, List.take_left' rfl]

theorem decode_encode_roundTrip (pixels : List Nat) (data : SteganographyData)
    (hpb : IsPixelBuffer pixels)
    (hcap : (stringToBinary (serializedData data)).length + 16 ≤ pixels.length / 4)
    (hchars : ∀ c ∈ serializedData data, c < 256)
    (hearly : NoEarlyDelimiterHit (fullBinary data))
    (hv : data.valid = true) :
    (encodeMessage pixels data).1 = none ∧
    decodeMessage (encodeMessage pixels data).2 = some data.toJson := by
  obtain ⟨hmod, hbytes⟩ := hpb
  have hcap' : 4 * (fullBinary data).length ≤ pixels.length := by
    rw [fullBinary_length]
    omega
  have henc : encodeMessage pixels data = (none, writeBits pixels (fullBinary data)) := by
    rw [encodeMessage, if_neg (by omega)]
  refine ⟨by rw [henc], ?_⟩
  rw [henc]
  have hscan := scan_of_encoded pixels data hbytes hcap' hearly
  obtain ⟨t, hser⟩ := serializedData_cons data
  have hne : stringToBinary (serializedData data) ≠ [] := by
    rw [hser, stringToBinary_cons]
    have h1 : (charToBits 123).length = 8 := charToBits_length (by omega)
    intro h
    have := congrArg List.length h
    simp [h1] at this
  rw [decodeMessage]
  simp only [hscan, if_neg hne]
  rw [binaryToString_stringToBinary _ hchars]
  have hne2 : serializedData data ≠ [] := by
    rw [hser]
    simp
  rw [if_neg hne2]
  exact parseJson_payload data hv

/-! ### Matcher lemmas -/

theorem isClickNearPoint_iff_sq (cx cy tx ty tol : ℝ) (h : (0:ℝ) ≤ tol) :
    isClickNearPoint cx cy tx ty tol ↔ (cx - tx) ^ 2 + (cy - ty) ^ 2 ≤ tol ^ 2 := by
  rw [isClickNearPoint]
  constructor
  · intro hle
    have h1 : Real.sqrt ((cx - tx) ^ 2 + (cy - ty) ^ 2) ^ 2 ≤ tol ^ 2 :=
      pow_le_pow_left₀ (Real.sqrt_nonneg _) hle 2
    rwa [Real.sq_sqrt (by positivity)] at h1
  · intro hle
    calc Real.sqrt ((cx - tx) ^ 2 + (cy - ty) ^ 2)
        ≤ Real.sqrt (tol ^ 2) := Real.sqrt_le_sqrt hle
      _ = tol := Real.sqrt_sq h

theorem isClickNearPoint_self (x y tol : ℝ) (h : (0:ℝ) ≤ tol) :
    isClickNearPoint x y x y tol := by
  rw [isClickNearPoint]
  simp [Real.sqrt_zero, h]

theorem VerifyRun_append (cs : List ClickPoint) (w h : ℝ) :
    ∀ (cl1 cl2 : List (ℝ × ℝ)) (st st'' : VerifyState) (sigs : List (Option Bool)),
    VerifyRun cs w h st (cl1 ++ cl2) sigs st'' →
    ∃ sigs1 sigs2 mid, sigs = sigs1 ++ sigs2 ∧
      VerifyRun cs w h st cl1 sigs1 mid ∧ VerifyRun cs w h mid cl2 sigs2 st'' := by
  intro cl1
  induction cl1 with
  | nil =>
    intro cl2 st st'' sigs hrun
    exact ⟨[], sigs, st, rfl, VerifyRun.nil st, by simpa using hrun⟩
  | cons c cl1 ih =>
    intro cl2 st st'' sigs hrun
    rw [List.cons_append] at hrun
    cases hrun with
    | cons hstep hrest =>
      obtain ⟨sigs1, sigs2, mid, hsigs, hrun1, hrun2⟩ := ih cl2 _ st'' _ hrest
      exact ⟨_ :: sigs1, sigs2, mid, by rw [hsigs, List.cons_append],
        VerifyRun.cons hstep hrun1, hrun2⟩

theorem run_mismatch_chain (cs : List ClickPoint) (w h : ℝ) (h0 : 0 < cs.length) :
    ∀ (ps : List ClickPoint) (sigs : List (Option Bool)) (st' : VerifyState),
    (∀ p ∈ ps, ¬ isClickNearPoint (denormalizeClickPoint p w h).1
      (denormalizeClickPoint p w h).2
      (denormalizeClickPoint (cs.get ⟨0, h0⟩) w h).1
      (denormalizeClickPoint (cs.get ⟨0, h0⟩) w h).2 25) →
    VerifyRun cs w h ⟨0, []⟩ (ps.map (fun p => denormalizeClickPoint p w h)) sigs st' →
    sigs = List.replicate ps.length (some false) ∧ st' = ⟨0, []⟩ := by
  intro ps
  induction ps with
  | nil =>
    intro sigs st' _ hrun
    cases hrun
    exact ⟨rfl, rfl⟩
  | cons p ps ih =>
    intro sigs st' hp hrun
    rw [List.map_cons] at hrun
    cases hrun with
    | cons hstep hrest =>
      cases hstep with
      | outOfSteps hge =>
        have hle0 : cs.length ≤ 0 := hge
        omega
      | near hlt hnear =>
        exact absurd hnear (hp p (by simp))
      | far hlt hfar =>
        obtain ⟨hsigs, hst⟩ := ih _ _ (fun q hq => hp q (by simp [hq])) hrest
        exact ⟨by rw [hsigs, List.length_cons, List.replicate_succ], hst⟩

/-! ### Claims -/

/-- Claim C2: encoding succeeds when the full bit string (serialized data
plus the 16-bit terminator) is exactly `pixelCount` bits long, and fails
with the capacity error when it is at least `pixelCount + 1` bits long; in
the failure case the pixel buffer is returned completely unchanged. -/
theorem claim_C2 (pixels1 pixels2 : List Nat) (data : SteganographyData)
    (h1 : pixels1.length % 4 = 0) (h2 : pixels2.length % 4 = 0)
    (hexact : (fullBinary data).length = pixels1.length / 4)
    (hover : pixels2.length / 4 + 1 ≤ (fullBinary data).length) :
    (encodeMessage pixels1 data).1 = none ∧
    (encodeMessage pixels2 data).1 = some (strCodes ("Message too long for this image")) ∧
    (encodeMessage pixels2 data).2 = pixels2 := by
  refine ⟨?_, ?_, ?_⟩
  · rw [encodeMessage, if_neg (by omega)]
  · rw [encodeMessage, if_pos (by omega)]
  · rw [encodeMessage, if_pos (by omega)]

set_option maxRecDepth 40000 in
theorem claim_C2_witness :
    ((List.replicate 1120 0 : List Nat).length % 4 = 0 ∧
      (List.replicate 1116 0 : List Nat).length % 4 = 0 ∧
      (fullBinary ⟨[], []⟩).length = (List.replicate 1120 0 : List Nat).length / 4 ∧
      (List.replicate 1116 0 : List Nat).length / 4 + 1 ≤ (fullBinary ⟨[], []⟩).length) ∧
    ((encodeMessage (List.replicate 1120 0) ⟨[], []⟩).1 = none ∧
      (encodeMessage (List.replicate 1116 0) ⟨[], []⟩).1
        = some (strCodes ("Message too long for this image")) ∧
      (encodeMessage (List.replicate 1116 0) ⟨[], []⟩).2 = List.replicate 1116 0) :=
  ⟨⟨by simp, by simp, by rfl, by rfl⟩,
    claim_C2 (List.replicate 1120 0) (List.replicate 1116 0) ⟨[], []⟩
      (by simp) (by simp) (by rfl) (by rfl)⟩

/-- Claim C4: a successful encode writes bit `i` of the full bit string
into the least significant bit of byte `4*i` (the red channel of pixel
`i`, row-major from pixel 0), preserves the upper 7 bits of each written
red channel, and leaves every other byte — the G, B, A channels and all
pixels with index at least the bit-string length — unchanged, without
changing the buffer size. -/
theorem claim_C4 (pixels : List Nat) (data : SteganographyData)
    (hpb : IsPixelBuffer pixels)
    (hok : (encodeMessage pixels data).1 = none) :
    (encodeMessage pixels data).2.length = pixels.length ∧
    (∀ i, i < (fullBinary data).length →
      (encodeMessage pixels data).2.getD (4 * i) 0 % 2 = (fullBinary data).getD i 0 ∧
      (encodeMessage pixels data).2.getD (4 * i) 0 / 2 = pixels.getD (4 * i) 0 / 2) ∧
    (∀ j, j % 4 ≠ 0 ∨ (fullBinary data).length ≤ j / 4 →
      (encodeMessage pixels data).2.getD j 0 = pixels.getD j 0) := by
  have hcap : ¬ pixels.length < 4 * (fullBinary data).length := by
    intro hlt
    rw [encodeMessage, if_pos hlt] at hok
    simp at hok
  have henc : (encodeMessage pixels data).2 = writeBits pixels (fullBinary data) := by
    rw [encodeMessage, if_neg hcap]
  rw [henc]
  refine ⟨writeBits_length _ _, ?_, ?_⟩
  · intro i hi
    have h4i : 4 * i < pixels.length := by omega
    have hpx : pixels.getD (4 * i) 0 < 256 := by
      rw [List.getD_eq_getElem pixels 0 h4i]
      exact hpb.2 _ (List.getElem_mem h4i)
    have hbit : (fullBinary data).getD i 0 < 2 := by
      rw [List.getD_eq_getElem _ 0 hi]
      exact fullBinary_lt_two data _ (List.getElem_mem hi)
    rw [writeBits_getD_written (fullBinary data) pixels i hi (by omega)]
    exact ⟨byte_write_mod _ _ hpx hbit, byte_write_div _ _ hpx hbit⟩
  · intro j hj
    exact writeBits_getD_frame (fullBinary data) pixels j hj

set_option maxRecDepth 100000 in
theorem claim_C4_witness :
    (IsPixelBuffer (List.replicate 1120 3) ∧
      (encodeMessage (List.replicate 1120 3) ⟨[], []⟩).1 = none) ∧
    ((encodeMessage (List.replicate 1120 3) ⟨[], []⟩).2.length
        = (List.replicate 1120 3 : List Nat).length ∧
      (∀ i, i < (fullBinary ⟨[], []⟩).length →
        (encodeMessage (List.replicate 1120 3) ⟨[], []⟩).2.getD (4 * i) 0 % 2
          = (fullBinary ⟨[], []⟩).getD i 0 ∧
        (encodeMessage (List.replicate 1120 3) ⟨[], []⟩).2.getD (4 * i) 0 / 2
          = (List.replicate 1120 3 : List Nat).getD (4 * i) 0 / 2) ∧
      (∀ j, j % 4 ≠ 0 ∨ (fullBinary ⟨[], []⟩).length ≤ j / 4 →
        (encodeMessage (List.replicate 1120 3) ⟨[], []⟩).2.getD j 0
          = (List.replicate 1120 3 : List Nat).getD j 0)) :=
  have hpb : IsPixelBuffer (List.replicate 1120 3) :=
    ⟨by simp, by intro b hb; rw [List.eq_of_mem_replicate hb]; omega⟩
  ⟨⟨hpb, by rfl⟩, claim_C4 (List.replicate 1120 3) ⟨[], []⟩ hpb (by rfl)⟩

set_option maxRecDepth 10000 in
/-- Claim C10 is false as stated: the single UTF-16 code unit 8364 is
mapped by `stringToBinary` to 14 bits, not 8, and the round trip turns the
one-character string `[8364]` into `[130]`. -/
theorem claim_C10_counterexample :
    (stringToBinary [8364]).length ≠ 8 * ([8364] : List Nat).length ∧
    binaryToString (stringToBinary [8364]) ≠ [8364] := by
  decide

/-- Claim C10 (amended): for characters with code below 256 — which is
every character the serializer can produce for ASCII payload text —
`stringToBinary` emits exactly 8 bits per character, those 8 bits decode
back to the character's code (most significant bit first), and
`binaryToString` inverts `stringToBinary` on any such string. -/
theorem claim_C10 (c : Nat) (s : List Nat) (hc : c < 256) (hs : ∀ d ∈ s, d < 256) :
    (charToBits c).length = 8 ∧ bitsToNat (charToBits c) = c ∧
    binaryToString (stringToBinary s) = s :=
  ⟨charToBits_length hc, bitsToNat_charToBits c, binaryToString_stringToBinary s hs⟩

theorem claim_C10_witness :
    65 < 256 ∧
    ((charToBits 65).length = 8 ∧ bitsToNat (charToBits 65) = 65 ∧
      binaryToString (stringToBinary (strCodes ("AB"))) = strCodes ("AB")) :=
  ⟨by decide, claim_C10 65 (strCodes ("AB")) (by decide) (by decide)⟩

set_option maxRecDepth 100000 in
/-- Claim C9: decode performs no payload-shape validation.  This buffer's
red-channel LSBs spell the JSON text of an object with only a `message`
field, followed by the terminator; `decodeMessage` returns that object
even though a `clickSequence` lookup on it yields nothing. -/
theorem claim_C9 :
    decodeMessage ((stringToBinary (123 :: strCodes ("\"message\":\"A\"") ++ [125])
        ++ delimiter).flatMap (fun b => [b, 0, 0, 0]))
      = some (Json.obj [(strCodes ("message"), Json.str (strCodes ("A")))]) ∧
    jsonLookup (Json.obj [(strCodes ("message"), Json.str (strCodes ("A")))])
      (strCodes ("clickSequence")) = none :=
  ⟨rfl, rfl⟩

set_option maxRecDepth 10000 in
/-- Claim C3 is false as stated: this 32-byte buffer never hits the 16-bit
terminator in its red-channel LSB stream, yet `decodeMessage` returns a
parsed JSON number rather than an absent result, because the scan loop
falls through handing the whole accumulated stream to the parser. -/
theorem claim_C3_counterexample :
    NoDelimiterHit (redLSBs ((stringToBinary (strCodes ("1"))).flatMap
      (fun b => [b, 0, 0, 0]))) ∧
    decodeMessage ((stringToBinary (strCodes ("1"))).flatMap (fun b => [b, 0, 0, 0]))
      = some (Json.num ⟨false, [49], none, none⟩) ∧
    decodeMessage ((stringToBinary (strCodes ("1"))).flatMap (fun b => [b, 0, 0, 0]))
      ≠ none :=
  ⟨by unfold NoDelimiterHit; decide, rfl,
    fun hnone => Option.noConfusion (Eq.trans
      (Eq.symm (rfl : decodeMessage
          ((stringToBinary (strCodes ("1"))).flatMap (fun b => [b, 0, 0, 0]))
        = some (Json.num ⟨false, [49], none, none⟩))) hnone)⟩

/-- Claim C3 (amended): on a buffer whose red-channel LSB stream never hits
the terminator, the scan falls through with the entire stream, and
`decodeMessage` returns exactly the JSON parse of the byte-decoded stream:
an absent result only when that text fails to parse.  (The model is total,
so no input makes decode throw.) -/
theorem claim_C3 (pixels : List Nat) (h : NoDelimiterHit (redLSBs pixels)) :
    decodeMessage pixels = parseJson (binaryToString (redLSBs pixels)) := by
  have hscan : scanLSB pixels [] = redLSBs pixels := by
    rw [scanLSB_eq_scanStream]
    rw [scanStream_no_hit _ [] (fun k hk1 hk2 => by simpa using h k hk2)]
    simp
  rw [decodeMessage]
  simp only [hscan]
  by_cases h1 : redLSBs pixels = []
  · rw [if_pos h1, h1]
    rfl
  · rw [if_neg h1]
    by_cases h2 : binaryToString (redLSBs pixels) = []
    · rw [if_pos h2, h2]
      rfl
    · rw [if_neg h2]

set_option maxRecDepth 10000 in
theorem claim_C3_witness :
    NoDelimiterHit (redLSBs [2, 0, 0, 0]) ∧
    decodeMessage [2, 0, 0, 0] = parseJson (binaryToString (redLSBs [2, 0, 0, 0])) :=
  ⟨by unfold NoDelimiterHit; decide, claim_C3 [2, 0, 0, 0] (by unfold NoDelimiterHit; decide)⟩

set_option maxRecDepth 1000000 in
/-- Claim C1 is false as stated.  Two payloads whose buffers satisfy the
stated capacity bound fail to round-trip: the message consisting of the
single code unit 8364 serializes that character to 14 bits instead of 8,
desynchronizing the byte stream, and the message [255, 255, 48] embeds a
bit pattern that triggers the terminator check early; both decodes return
`none` instead of the original payload. -/
theorem claim_C1_counterexample :
    ((stringToBinary (serializedData ⟨[8364], []⟩)).length + 16
        ≤ (List.replicate 1176 0 : List Nat).length / 4 ∧
      decodeMessage (encodeMessage (List.replicate 1176 0) ⟨[8364], []⟩).2 = none ∧
      decodeMessage (encodeMessage (List.replicate 1176 0) ⟨[8364], []⟩).2
        ≠ some (SteganographyData.toJson ⟨[8364], []⟩)) ∧
    ((stringToBinary (serializedData ⟨[255, 255, 48], []⟩)).length + 16
        ≤ (List.replicate 1264 0 : List Nat).length / 4 ∧
      decodeMessage (encodeMessage (List.replicate 1264 0) ⟨[255, 255, 48], []⟩).2 = none ∧
      decodeMessage (encodeMessage (List.replicate 1264 0) ⟨[255, 255, 48], []⟩).2
        ≠ some (SteganographyData.toJson ⟨[255, 255, 48], []⟩)) := by
  have h1 : decodeMessage (encodeMessage (List.replicate 1176 0) ⟨[8364], []⟩).2 = none := rfl
  have h2 : decodeMessage (encodeMessage (List.replicate 1264 0) ⟨[255, 255, 48], []⟩).2
      = none := rfl
  exact ⟨⟨by decide, h1, fun hc => Option.noConfusion (h1.symm.trans hc)⟩,
    ⟨by decide, h2, fun hc => Option.noConfusion (h2.symm.trans hc)⟩⟩

/-- Claim C1 (amended): the round trip holds under two extra conditions the
original statement lacks — every character of the serialized payload text
is a single byte (code below 256), and the serialized bit string never
matches the 16-bit terminator pattern before its end (plus the payload
numerals being grammatical JSON, true of every JavaScript number).  Then
for any well-formed RGBA buffer whose pixel count is at least the
serialized bit length plus 16, encoding succeeds and decoding the encoded
buffer returns exactly the original payload object. -/
theorem claim_C1 (pixels : List Nat) (data : SteganographyData)
    (hpb : IsPixelBuffer pixels)
    (hcap : (stringToBinary (serializedData data)).length + 16 ≤ pixels.length / 4)
    (hchars : ∀ c ∈ serializedData data, c < 256)
    (hearly : NoEarlyDelimiterHit (fullBinary data))
    (hv : data.valid = true) :
    (encodeMessage pixels data).1 = none ∧
    decodeMessage (encodeMessage pixels data).2 = some data.toJson :=
  decode_encode_roundTrip pixels data hpb hcap hchars hearly hv

set_option maxRecDepth 100000 in
set_option maxHeartbeats 4000000 in
theorem claim_C1_witness :
    (IsPixelBuffer (List.replicate 2080 0) ∧
      (stringToBinary (serializedData ⟨strCodes ("hi"),
          [⟨⟨false, [48], some [53], none⟩, ⟨false, [48], some [50, 53], none⟩,
            ⟨false, [48], none, none⟩⟩]⟩)).length + 16
        ≤ (List.replicate 2080 0 : List Nat).length / 4 ∧
      SteganographyData.valid ⟨strCodes ("hi"),
          [⟨⟨false, [48], some [53], none⟩, ⟨false, [48], some [50, 53], none⟩,
            ⟨false, [48], none, none⟩⟩]⟩ = true) ∧
    ((encodeMessage (List.replicate 2080 0) ⟨strCodes ("hi"),
          [⟨⟨false, [48], some [53], none⟩, ⟨false, [48], some [50, 53], none⟩,
            ⟨false, [48], none, none⟩⟩]⟩).1 = none ∧
      decodeMessage (encodeMessage (List.replicate 2080 0) ⟨strCodes ("hi"),
          [⟨⟨false, [48], some [53], none⟩, ⟨false, [48], some [50, 53], none⟩,
            ⟨false, [48], none, none⟩⟩]⟩).2
        = some (SteganographyData.toJson ⟨strCodes ("hi"),
          [⟨⟨false, [48], some [53], none⟩, ⟨false, [48], some [50, 53], none⟩,
            ⟨false, [48], none, none⟩⟩]⟩)) :=
  have hpb : IsPixelBuffer (List.replicate 2080 0) :=
    ⟨by simp, by intro b hb; rw [List.eq_of_mem_replicate hb]; omega⟩
  ⟨⟨hpb, by simp only [List.length_replicate]; decide, by decide⟩,
    claim_C1 (List.replicate 2080 0) ⟨strCodes ("hi"),
        [⟨⟨false, [48], some [53], none⟩, ⟨false, [48], some [50, 53], none⟩,
          ⟨false, [48], none, none⟩⟩]⟩ hpb (by simp only [List.length_replicate]; decide) (by decide)
      (by unfold NoEarlyDelimiterHit; decide) (by decide)⟩


/-- Claim C5: `isClickNearPoint` holds exactly when the Euclidean distance
between the submitted and the target point is at most the tolerance; a
click at distance exactly the tolerance matches, one at any strictly
greater distance does not; and the default value of the `tolerance`
parameter is 30, inside the stated 25-30 range. -/
theorem claim_C5 (clickX clickY targetX targetY tolerance : ℝ)
    (htol : 0 ≤ tolerance) :
    (isClickNearPoint clickX clickY targetX targetY tolerance ↔
      (clickX - targetX) ^ 2 + (clickY - targetY) ^ 2 ≤ tolerance ^ 2) ∧
    (Real.sqrt ((clickX - targetX) ^ 2 + (clickY - targetY) ^ 2) = tolerance →
      isClickNearPoint clickX clickY targetX targetY tolerance) ∧
    (tolerance < Real.sqrt ((clickX - targetX) ^ 2 + (clickY - targetY) ^ 2) →
      ¬ isClickNearPoint clickX clickY targetX targetY tolerance) ∧
    defaultTolerance = 30 ∧ 25 ≤ defaultTolerance ∧ defaultTolerance ≤ 30 := by
  refine ⟨isClickNearPoint_iff_sq _ _ _ _ _ htol, ?_, ?_, rfl,
    by rw [defaultTolerance]; norm_num, by rw [defaultTolerance]⟩
  · intro heq
    rw [isClickNearPoint, heq]
  · intro hlt hnear
    rw [isClickNearPoint] at hnear
    linarith

theorem claim_C5_witness :
    (0:ℝ) ≤ 5 ∧
    ((isClickNearPoint 3 4 0 0 5 ↔
        ((3:ℝ) - 0) ^ 2 + ((4:ℝ) - 0) ^ 2 ≤ (5:ℝ) ^ 2) ∧
      (Real.sqrt (((3:ℝ) - 0) ^ 2 + ((4:ℝ) - 0) ^ 2) = 5 →
        isClickNearPoint 3 4 0 0 5) ∧
      ((5:ℝ) < Real.sqrt (((3:ℝ) - 0) ^ 2 + ((4:ℝ) - 0) ^ 2) →
        ¬ isClickNearPoint 3 4 0 0 5) ∧
      defaultTolerance = 30 ∧ 25 ≤ defaultTolerance ∧ defaultTolerance ≤ 30) :=
  ⟨by norm_num, claim_C5 3 4 0 0 5 (by norm_num)⟩

/-- Claim C6: with steps remaining, the step function is characterized
exactly: a click within tolerance 25 of the denormalized reference point
at the current step appends the normalized attempt to the log and advances
the step, completing with success precisely when the new step equals the
sequence length; a click beyond tolerance resets the step to 0, clears the
log, and completes with failure (non-terminal for the session owner). -/
theorem claim_C6 (clickSequence : List ClickPoint) (w h : ℝ) (st : VerifyState)
    (x y : ℝ) (st' : VerifyState) (sig : Option Bool)
    (hlt : st.currentStep < clickSequence.length) :
    HandleVerificationClick clickSequence w h st x y st' sig ↔
      ((isClickNearPoint x y
          (denormalizeClickPoint (clickSequence.get ⟨st.currentStep, hlt⟩) w h).1
          (denormalizeClickPoint (clickSequence.get ⟨st.currentStep, hlt⟩) w h).2 25 ∧
        st' = ⟨st.currentStep + 1,
          st.verificationAttempts ++ [⟨x / w, y / h, st.currentStep⟩]⟩ ∧
        sig = (if st.currentStep + 1 = clickSequence.length then some true else none)) ∨
      (¬ isClickNearPoint x y
          (denormalizeClickPoint (clickSequence.get ⟨st.currentStep, hlt⟩) w h).1
          (denormalizeClickPoint (clickSequence.get ⟨st.currentStep, hlt⟩) w h).2 25 ∧
        st' = ⟨0, []⟩ ∧ sig = some false)) := by
  constructor
  · intro hstep
    cases hstep with
    | outOfSteps hge => omega
    | near hlt2 hnear =>
      refine Or.inl ⟨hnear, rfl, ?_⟩
      by_cases hc : clickSequence.length ≤ st.currentStep + 1
      · rw [if_pos hc, if_pos (by omega)]
      · rw [if_neg hc, if_neg (by omega)]
    | far hlt2 hfar =>
      exact Or.inr ⟨hfar, rfl, rfl⟩
  · rintro (⟨hnear, rfl, rfl⟩ | ⟨hfar, rfl, rfl⟩)
    · have hsig : (if clickSequence.length ≤ st.currentStep + 1 then
            some true else none)
          = (if st.currentStep + 1 = clickSequence.length then some true else none) := by
        by_cases hc : clickSequence.length ≤ st.currentStep + 1
        · rw [if_pos hc, if_pos (by omega)]
        · rw [if_neg hc, if_neg (by omega)]
      rw [← hsig]
      exact HandleVerificationClick.near st x y hlt hnear
    · exact HandleVerificationClick.far st x y hlt hfar

theorem claim_C6_witness :
    (⟨0, []⟩ : VerifyState).currentStep < ([⟨1 / 2, 1 / 2, 0⟩] : List ClickPoint).length ∧
    HandleVerificationClick [⟨1 / 2, 1 / 2, 0⟩] 100 100 ⟨0, []⟩ 50 50
      ⟨1, [⟨50 / 100, 50 / 100, 0⟩]⟩ (some true) :=
  ⟨by decide,
    (claim_C6 [⟨1 / 2, 1 / 2, 0⟩] 100 100 ⟨0, []⟩ 50 50
        ⟨1, [⟨50 / 100, 50 / 100, 0⟩]⟩ (some true) (by decide)).mpr
      (Or.inl ⟨(isClickNearPoint_iff_sq _ _ _ _ _ (by norm_num)).mpr
          (by norm_num [denormalizeClickPoint]),
        rfl, rfl⟩)⟩

/-- Claim C8: from a freshly loaded image (failed-session counter 0), the
first two failed verification sessions keep the loaded image and reference
click sequence (only the counter advances, so a retry is possible), and
the third failed session produces the full reset state: image cleared,
click sequence cleared, counter back to 0, locking out verification until
a new upload. -/
theorem claim_C8 (st : DecodeState) (h0 : st.attempts = 0) :
    ((handleVerificationComplete st false).attempts = 1 ∧
      (handleVerificationComplete st false).image = st.image ∧
      (handleVerificationComplete st false).clickSequence = st.clickSequence) ∧
    ((handleVerificationComplete (handleVerificationComplete st false) false).attempts = 2 ∧
      (handleVerificationComplete (handleVerificationComplete st false) false).image
        = st.image ∧
      (handleVerificationComplete (handleVerificationComplete st false) false).clickSequence
        = st.clickSequence) ∧
    (handleVerificationComplete (handleVerificationComplete
        (handleVerificationComplete st false) false) false = resetAllState ∧
      resetAllState.image = none ∧ resetAllState.clickSequence = []) := by
  have h1 : handleVerificationComplete st false
      = { st with isVerifying := false, attempts := 1 } := by
    rw [handleVerificationComplete]
    simp [h0]
  have h2 : handleVerificationComplete { st with isVerifying := false, attempts := 1 } false
      = { st with isVerifying := false, attempts := 2 } := by
    rw [handleVerificationComplete]
    simp
  have h3 : handleVerificationComplete { st with isVerifying := false, attempts := 2 } false
      = resetAllState := by
    rw [handleVerificationComplete]
    simp
  rw [h1, h2, h3]
  simp [resetAllState]

theorem claim_C8_witness :
    (⟨some [1, 2, 3, 4], [⟨1 / 2, 1 / 2, 0⟩], false, false, none, 0⟩
        : DecodeState).attempts = 0 ∧
    (((handleVerificationComplete
          ⟨some [1, 2, 3, 4], [⟨1 / 2, 1 / 2, 0⟩], false, false, none, 0⟩ false).attempts = 1 ∧
      (handleVerificationComplete
          ⟨some [1, 2, 3, 4], [⟨1 / 2, 1 / 2, 0⟩], false, false, none, 0⟩ false).image
        = (⟨some [1, 2, 3, 4], [⟨1 / 2, 1 / 2, 0⟩], false, false, none, 0⟩
            : DecodeState).image ∧
      (handleVerificationComplete
          ⟨some [1, 2, 3, 4], [⟨1 / 2, 1 / 2, 0⟩], false, false, none, 0⟩ false).clickSequence
        = (⟨some [1, 2, 3, 4], [⟨1 / 2, 1 / 2, 0⟩], false, false, none, 0⟩
            : DecodeState).clickSequence) ∧
    ((handleVerificationComplete (handleVerificationComplete
          ⟨some [1, 2, 3, 4], [⟨1 / 2, 1 / 2, 0⟩], false, false, none, 0⟩ false) false).attempts
        = 2 ∧
      (handleVerificationComplete (handleVerificationComplete
          ⟨some [1, 2, 3, 4], [⟨1 / 2, 1 / 2, 0⟩], false, false, none, 0⟩ false) false).image
        = (⟨some [1, 2, 3, 4], [⟨1 / 2, 1 / 2, 0⟩], false, false, none, 0⟩
            : DecodeState).image ∧
      (handleVerificationComplete (handleVerificationComplete
          ⟨some [1, 2, 3, 4], [⟨1 / 2, 1 / 2, 0⟩], false, false, none, 0⟩
          false) false).clickSequence
        = (⟨some [1, 2, 3, 4], [⟨1 / 2, 1 / 2, 0⟩], false, false, none, 0⟩
            : DecodeState).clickSequence) ∧
    (handleVerificationComplete (handleVerificationComplete (handleVerificationComplete
          ⟨some [1, 2, 3, 4], [⟨1 / 2, 1 / 2, 0⟩], false, false, none, 0⟩ false) false) false
        = resetAllState ∧
      resetAllState.image = none ∧ resetAllState.clickSequence = [])) :=
  ⟨rfl, claim_C8 ⟨some [1, 2, 3, 4], [⟨1 / 2, 1 / 2, 0⟩], false, false, none, 0⟩ rfl⟩

/-- Claim C7 (amended): for a reference sequence of 3-4 points that are
pairwise farther apart than the click tolerance 25 in denormalized
(canvas) space — mere distinctness is not enough, since distinct points
within tolerance of each other still match — submitting exactly the
reference points in reverse order never completes a session with success:
every click is compared only against the reference point at the current
step, so each click before the last mismatches and resets the session, and
the final click advances the step to 1, short of the sequence length. -/
theorem claim_C7 (cs : List ClickPoint) (w h : ℝ)
    (hlen3 : 3 ≤ cs.length) (hlen4 : cs.length ≤ 4)
    (hsep : ∀ (i j : Nat) (hi : i < cs.length) (hj : j < cs.length), i ≠ j →
      ¬ isClickNearPoint (denormalizeClickPoint (cs.get ⟨i, hi⟩) w h).1
        (denormalizeClickPoint (cs.get ⟨i, hi⟩) w h).2
        (denormalizeClickPoint (cs.get ⟨j, hj⟩) w h).1
        (denormalizeClickPoint (cs.get ⟨j, hj⟩) w h).2 25)
    (sigs : List (Option Bool)) (st' : VerifyState)
    (hrun : VerifyRun cs w h ⟨0, []⟩
      (cs.reverse.map (fun p => denormalizeClickPoint p w h)) sigs st') :
    some true ∉ sigs := by
  cases cs with
  | nil => simp at hlen3
  | cons a t =>
  rw [List.reverse_cons, List.map_append] at hrun
  simp only [List.map_cons, List.map_nil] at hrun
  obtain ⟨sigs1, sigs2, mid, hsplit, hrun1, hrun2⟩ :=
    VerifyRun_append (a :: t) w h _ _ _ _ _ hrun
  have h0 : 0 < (a :: t).length := by simp
  have hchain := run_mismatch_chain (a :: t) w h h0 t.reverse sigs1 mid ?hp hrun1
  case hp =>
    intro p hp
    rw [List.mem_reverse] at hp
    obtain ⟨n, hn⟩ := List.mem_iff_get.mp hp
    have hn1 : n.1 + 1 < (a :: t).length := by
      rw [List.length_cons]
      exact Nat.succ_lt_succ n.isLt
    have hidx : (a :: t).get ⟨n.1 + 1, hn1⟩ = p := by
      rw [← hn]
      rfl
    have hs := hsep (n.1 + 1) 0 hn1 h0 (by omega)
    rw [hidx] at hs
    exact hs
  obtain ⟨hsigs1, hmid⟩ := hchain
  subst hmid
  cases hrun2 with
  | cons hstep hrest =>
    cases hrest with
    | nil =>
      cases hstep with
      | outOfSteps hge =>
        have h00 : (a :: t).length ≤ 0 := hge
        rw [List.length_cons] at h00
        omega
      | near hlt hnear =>
        rw [hsplit, hsigs1]
        have hno : ¬ ((a :: t).length ≤ (⟨0, []⟩ : VerifyState).currentStep + 1) := by
          show ¬ ((a :: t).length ≤ 0 + 1)
          rw [List.length_cons] at hlen3 ⊢
          omega
        rw [if_neg hno]
        simp [List.mem_append, List.mem_replicate]
      | far hlt hfar =>
        exact absurd (isClickNearPoint_self _ _ _ (by norm_num)) hfar

theorem claim_C7_witness :
    3 ≤ ([⟨0, 0, 0⟩, ⟨1 / 2, 1 / 2, 1⟩, ⟨1, 1, 2⟩] : List ClickPoint).length ∧
    ([⟨0, 0, 0⟩, ⟨1 / 2, 1 / 2, 1⟩, ⟨1, 1, 2⟩] : List ClickPoint).length ≤ 4 ∧
    some true ∉ ([some false, some false, none] : List (Option Bool)) := by
  refine ⟨by decide, by decide, ?_⟩
  have hsep : ∀ (i j : Nat)
      (hi : i < ([⟨0, 0, 0⟩, ⟨1 / 2, 1 / 2, 1⟩, ⟨1, 1, 2⟩] : List ClickPoint).length)
      (hj : j < ([⟨0, 0, 0⟩, ⟨1 / 2, 1 / 2, 1⟩, ⟨1, 1, 2⟩] : List ClickPoint).length),
      i ≠ j →
      ¬ isClickNearPoint
        (denormalizeClickPoint (([⟨0, 0, 0⟩, ⟨1 / 2, 1 / 2, 1⟩, ⟨1, 1, 2⟩]
          : List ClickPoint).get ⟨i, hi⟩) 100 100).1
        (denormalizeClickPoint (([⟨0, 0, 0⟩, ⟨1 / 2, 1 / 2, 1⟩, ⟨1, 1, 2⟩]
          : List ClickPoint).get ⟨i, hi⟩) 100 100).2
        (denormalizeClickPoint (([⟨0, 0, 0⟩, ⟨1 / 2, 1 / 2, 1⟩, ⟨1, 1, 2⟩]
          : List ClickPoint).get ⟨j, hj⟩) 100 100).1
        (denormalizeClickPoint (([⟨0, 0, 0⟩, ⟨1 / 2, 1 / 2, 1⟩, ⟨1, 1, 2⟩]
          : List ClickPoint).get ⟨j, hj⟩) 100 100).2 25 := by
    intro i j hi hj hne
    rw [isClickNearPoint_iff_sq _ _ _ _ _ (by norm_num : (0:ℝ) ≤ 25)]
    have hi3 : i < 3 := by simpa using hi
    have hj3 : j < 3 := by simpa using hj
    interval_cases i
    · interval_cases j
      · exact absurd rfl hne
      · show ¬(((0:ℝ) * 100 - 1 / 2 * 100) ^ 2 + ((0:ℝ) * 100 - 1 / 2 * 100) ^ 2 ≤ 25 ^ 2)
        norm_num
      · show ¬(((0:ℝ) * 100 - 1 * 100) ^ 2 + ((0:ℝ) * 100 - 1 * 100) ^ 2 ≤ 25 ^ 2)
        norm_num
    · interval_cases j
      · show ¬(((1:ℝ) / 2 * 100 - 0 * 100) ^ 2 + ((1:ℝ) / 2 * 100 - 0 * 100) ^ 2 ≤ 25 ^ 2)
        norm_num
      · exact absurd rfl hne
      · show ¬(((1:ℝ) / 2 * 100 - 1 * 100) ^ 2 + ((1:ℝ) / 2 * 100 - 1 * 100) ^ 2 ≤ 25 ^ 2)
        norm_num
    · interval_cases j
      · show ¬(((1:ℝ) * 100 - 0 * 100) ^ 2 + ((1:ℝ) * 100 - 0 * 100) ^ 2 ≤ 25 ^ 2)
        norm_num
      · show ¬(((1:ℝ) * 100 - 1 / 2 * 100) ^ 2 + ((1:ℝ) * 100 - 1 / 2 * 100) ^ 2 ≤ 25 ^ 2)
        norm_num
      · exact absurd rfl hne
  have hfar1 : ¬ isClickNearPoint ((1:ℝ) * 100) (1 * 100) (0 * 100) (0 * 100) 25 := by
    rw [isClickNearPoint_iff_sq _ _ _ _ _ (by norm_num : (0:ℝ) ≤ 25)]
    norm_num
  have hfar2 : ¬ isClickNearPoint ((1:ℝ) / 2 * 100) (1 / 2 * 100) (0 * 100) (0 * 100) 25 := by
    rw [isClickNearPoint_iff_sq _ _ _ _ _ (by norm_num : (0:ℝ) ≤ 25)]
    norm_num
  have hstep1 : HandleVerificationClick
      [⟨0, 0, 0⟩, ⟨1 / 2, 1 / 2, 1⟩, ⟨1, 1, 2⟩] 100 100 ⟨0, []⟩
      (denormalizeClickPoint ⟨1, 1, 2⟩ 100 100).1
      (denormalizeClickPoint ⟨1, 1, 2⟩ 100 100).2 ⟨0, []⟩ (some false) :=
    HandleVerificationClick.far ⟨0, []⟩ _ _ (by decide) hfar1
  have hstep2 : HandleVerificationClick
      [⟨0, 0, 0⟩, ⟨1 / 2, 1 / 2, 1⟩, ⟨1, 1, 2⟩] 100 100 ⟨0, []⟩
      (denormalizeClickPoint ⟨1 / 2, 1 / 2, 1⟩ 100 100).1
      (denormalizeClickPoint ⟨1 / 2, 1 / 2, 1⟩ 100 100).2 ⟨0, []⟩ (some false) :=
    HandleVerificationClick.far ⟨0, []⟩ _ _ (by decide) hfar2
  have hstep3 : HandleVerificationClick
      [⟨0, 0, 0⟩, ⟨1 / 2, 1 / 2, 1⟩, ⟨1, 1, 2⟩] 100 100 ⟨0, []⟩
      (denormalizeClickPoint ⟨0, 0, 0⟩ 100 100).1
      (denormalizeClickPoint ⟨0, 0, 0⟩ 100 100).2
      ⟨1, [⟨0 * 100 / 100, 0 * 100 / 100, 0⟩]⟩ none :=
    HandleVerificationClick.near ⟨0, []⟩ _ _ (by decide)
      (isClickNearPoint_self _ _ _ (by norm_num))
  have hrun : VerifyRun [⟨0, 0, 0⟩, ⟨1 / 2, 1 / 2, 1⟩, ⟨1, 1, 2⟩] 100 100 ⟨0, []⟩
      (([⟨0, 0, 0⟩, ⟨1 / 2, 1 / 2, 1⟩, ⟨1, 1, 2⟩] : List ClickPoint).reverse.map
        (fun p => denormalizeClickPoint p 100 100))
      [some false, some false, none] ⟨1, [⟨0 * 100 / 100, 0 * 100 / 100, 0⟩]⟩ :=
    VerifyRun.cons hstep1 (VerifyRun.cons hstep2 (VerifyRun.cons hstep3 (VerifyRun.nil _)))
  exact claim_C7 [⟨0, 0, 0⟩, ⟨1 / 2, 1 / 2, 1⟩, ⟨1, 1, 2⟩] 100 100
    (by decide) (by decide) hsep [some false, some false, none]
    ⟨1, [⟨0 * 100 / 100, 0 * 100 / 100, 0⟩]⟩ hrun

/-- Claim C7 is false as stated: distinctness of the reference points is
not enough for order sensitivity.  These three pairwise-distinct points
lie within 25 canvas units of one another, so submitting them in reverse
order matches at every step and the session completes with success. -/
theorem claim_C7_counterexample :
    ((⟨0, 0, 0⟩ : ClickPoint) ≠ ⟨1 / 1000, 0, 1⟩ ∧
      (⟨0, 0, 0⟩ : ClickPoint) ≠ ⟨2 / 1000, 0, 2⟩ ∧
      (⟨1 / 1000, 0, 1⟩ : ClickPoint) ≠ ⟨2 / 1000, 0, 2⟩) ∧
    VerifyRun [⟨0, 0, 0⟩, ⟨1 / 1000, 0, 1⟩, ⟨2 / 1000, 0, 2⟩] 100 100 ⟨0, []⟩
      (([⟨0, 0, 0⟩, ⟨1 / 1000, 0, 1⟩, ⟨2 / 1000, 0, 2⟩] : List ClickPoint).reverse.map
        (fun p => denormalizeClickPoint p 100 100))
      [none, none, some true]
      ⟨3, [⟨2 / 1000 * 100 / 100, 0 * 100 / 100, 0⟩,
        ⟨1 / 1000 * 100 / 100, 0 * 100 / 100, 1⟩, ⟨0 * 100 / 100, 0 * 100 / 100, 2⟩]⟩ ∧
    some true ∈ ([none, none, some true] : List (Option Bool)) := by
  refine ⟨⟨?_, ?_, ?_⟩, ?_, by decide⟩
  · intro he
    have h := congrArg ClickPoint.order he
    simp at h
  · intro he
    have h := congrArg ClickPoint.order he
    simp at h
  · intro he
    have h := congrArg ClickPoint.order he
    simp at h
  · have hnear1 : isClickNearPoint ((2:ℝ) / 1000 * 100) (0 * 100) (0 * 100) (0 * 100) 25 := by
      rw [isClickNearPoint_iff_sq _ _ _ _ _ (by norm_num : (0:ℝ) ≤ 25)]
      norm_num
    have hnear3 : isClickNearPoint ((0:ℝ) * 100) (0 * 100) (2 / 1000 * 100) (0 * 100) 25 := by
      rw [isClickNearPoint_iff_sq _ _ _ _ _ (by norm_num : (0:ℝ) ≤ 25)]
      norm_num
    have hstep1 : HandleVerificationClick
        [⟨0, 0, 0⟩, ⟨1 / 1000, 0, 1⟩, ⟨2 / 1000, 0, 2⟩] 100 100 ⟨0, []⟩
        (denormalizeClickPoint ⟨2 / 1000, 0, 2⟩ 100 100).1
        (denormalizeClickPoint ⟨2 / 1000, 0, 2⟩ 100 100).2
        ⟨1, [⟨2 / 1000 * 100 / 100, 0 * 100 / 100, 0⟩]⟩ none :=
      HandleVerificationClick.near ⟨0, []⟩ _ _ (by decide) hnear1
    have hstep2 : HandleVerificationClick
        [⟨0, 0, 0⟩, ⟨1 / 1000, 0, 1⟩, ⟨2 / 1000, 0, 2⟩] 100 100
        ⟨1, [⟨2 / 1000 * 100 / 100, 0 * 100 / 100, 0⟩]⟩
        (denormalizeClickPoint ⟨1 / 1000, 0, 1⟩ 100 100).1
        (denormalizeClickPoint ⟨1 / 1000, 0, 1⟩ 100 100).2
        ⟨2, [⟨2 / 1000 * 100 / 100, 0 * 100 / 100, 0⟩,
          ⟨1 / 1000 * 100 / 100, 0 * 100 / 100, 1⟩]⟩ none :=
      HandleVerificationClick.near _ _ _ (by decide)
        (isClickNearPoint_self _ _ _ (by norm_num))
    have hstep3 : HandleVerificationClick
        [⟨0, 0, 0⟩, ⟨1 / 1000, 0, 1⟩, ⟨2 / 1000, 0, 2⟩] 100 100
        ⟨2, [⟨2 / 1000 * 100 / 100, 0 * 100 / 100, 0⟩,
          ⟨1 / 1000 * 100 / 100, 0 * 100 / 100, 1⟩]⟩
        (denormalizeClickPoint ⟨0, 0, 0⟩ 100 100).1
        (denormalizeClickPoint ⟨0, 0, 0⟩ 100 100).2
        ⟨3, [⟨2 / 1000 * 100 / 100, 0 * 100 / 100, 0⟩,
          ⟨1 / 1000 * 100 / 100, 0 * 100 / 100, 1⟩, ⟨0 * 100 / 100, 0 * 100 / 100, 2⟩]⟩
        (some true) :=
      HandleVerificationClick.near _ _ _ (by decide) hnear3
    exact VerifyRun.cons hstep1 (VerifyRun.cons hstep2
      (VerifyRun.cons hstep3 (VerifyRun.nil _)))

end Stego
